import Mathlib

/-!
Verification of the MCP agent runtime core (Go sources under `internal/` and
`pkg/`) against its natural-language specification.  Each Go function that a
claim touches is shallowly embedded as an executable Lean definition; machine
integers become `Nat`/`Int`, in-place mutation becomes explicit state passing,
fallible code returns `Option`/`Except`, and Go `panic` sites (out-of-range
slice indexing, nil dereference) become an explicit `crash`-style constructor.
Strings that the Go code indexes byte-wise are modelled as `List Char`
(the relevant names are ASCII, one byte per character).
-/

set_option maxRecDepth 4000

/-! ## Tool adapter: qualified tool names (part_005, `ToolAdapter`)

`convertMCPToolToUnified` builds `fmt.Sprintf("%s__%s", serverName, tool.Name)`,
and `parseToolName` scans for the FIRST index `i` with
`toolName[i] == '_' && toolName[i+1] == '_'`, returning
`(toolName[:i], toolName[i+2:])`. -/

/-- Embedding of the qualified-name formatting in `convertMCPToolToUnified`:
`fmt.Sprintf("%s__%s", serverName, toolName)`. -/
def formatToolName (server tool : List Char) : List Char :=
  server ++ '_' :: '_' :: tool

/-- Embedding of `ToolAdapter.parseToolName`: scan left to right for the first
position where two consecutive characters are both underscores; split there.
`none` models the `invalid tool name format` error return. -/
def parseToolName : List Char → Option (List Char × List Char)
  | [] => none
  | [_] => none
  | c1 :: c2 :: rest =>
    if c1 = '_' ∧ c2 = '_' then
      some ([], rest)
    else
      match parseToolName (c2 :: rest) with
      | some (s, t) => some (c1 :: s, t)
      | none => none

/-- A server name is separator-safe when no two consecutive characters of
`name ++ "_"` are both underscores, i.e. the name contains no `"__"` and does
not end in `'_'`. -/
def sepSafe : List Char → Bool
  | c1 :: c2 :: rest => if c1 = '_' ∧ c2 = '_' then false else sepSafe (c2 :: rest)
  | _ => true

lemma sepSafe_cons {c1 c2 : Char} {rest : List Char}
    (h : sepSafe (c1 :: c2 :: rest) = true) :
    ¬(c1 = '_' ∧ c2 = '_') ∧ sepSafe (c2 :: rest) = true := by
  rw [sepSafe] at h
  by_cases hc : c1 = '_' ∧ c2 = '_'
  · simp [hc] at h
  · exact ⟨hc, by simpa [hc] using h⟩

lemma parseToolName_append (tool : List Char) :
    ∀ server : List Char, sepSafe (server ++ ['_']) = true →
      parseToolName (formatToolName server tool) = some (server, tool) := by
  intro server
  induction server with
  | nil => intro _; simp [formatToolName, parseToolName]
  | cons c s ih =>
    intro hsafe
    cases s with
    | nil =>
      have hc : ¬(c = '_' ∧ ('_' : Char) = '_') ∧ sepSafe ['_', '_'] = true →
          False := by intro h; simpa [sepSafe] using h.2
      have h1 : sepSafe (c :: ['_']) = true := hsafe
      have hcne : c ≠ '_' := by
        intro hceq; subst hceq; simpa [sepSafe] using h1
      simp [formatToolName, parseToolName, hcne]
    | cons c2 s' =>
      have h1 : sepSafe (c :: c2 :: (s' ++ ['_'])) = true := by
        simpa using hsafe
      obtain ⟨hne, htail⟩ := sepSafe_cons h1
      have ihres := ih (by simpa using htail)
      simp only [formatToolName, List.cons_append] at ihres ⊢
      rw [parseToolName]
      simp [hne, ihres]

/-- C4. The qualified-name round-trip `parse ∘ format = id` fails on the code
for server names over alphanumerics and underscore: `parseToolName` splits at
the FIRST double underscore, so a server name ending in `'_'` donates its final
underscore to the separator.  Concretely `format "a_" "x" = "a___x"` parses
back as `("a", "_x")`, not `("a_", "x")`. -/
theorem toolName_roundTrip_counterexample :
    parseToolName (formatToolName ['a', '_'] ['x']) = some (['a'], ['_', 'x'])
      ∧ (['a'], ['_', 'x']) ≠ ((['a', '_'], ['x']) : List Char × List Char) := by
  constructor
  · rfl
  · decide

/-- C4 (amended). For every server name that contains no `"__"` and does not
end in `'_'` (in particular any separator-free alphanumeric+underscore name),
and every tool name, parsing the formatted qualified name returns exactly the
original pair: `parseToolName (formatToolName server tool) = some (server,
tool)`. -/
theorem toolName_roundTrip (server tool : List Char)
    (hsafe : sepSafe (server ++ ['_']) = true) :
    parseToolName (formatToolName server tool) = some (server, tool) :=
  parseToolName_append tool server hsafe

/-- C4 witness: the round-trip theorem applied to the concrete pair
`("imagesorcery", "detect")`. -/
theorem toolName_roundTrip_witness :
    sepSafe (('i' :: "magesorcery".toList) ++ ['_']) = true
      ∧ parseToolName
          (formatToolName ('i' :: "magesorcery".toList) ('d' :: "etect".toList))
        = some (('i' :: "magesorcery".toList), ('d' :: "etect".toList)) :=
  ⟨by decide, toolName_roundTrip _ _ (by decide)⟩

/-! ## MCP client (`internal/client/client.go`)

`Client` wraps a `Transport`.  `ListTools` and `CallTool` call
`transport.SendRequest` directly; the `Client` struct stores only
`serverName`/`serverVer` (written by `Initialize`) and neither method reads
them.  A transport reply is either a JSON-RPC error (propagated by
`SendRequest`), a payload that unmarshals into the expected response type, or
a payload that fails to unmarshal. -/

/-- Embedding of `types.ContentBlock`. -/
structure ContentBlock where
  type : String := ""
  text : String := ""
  data : String := ""
  uri : String := ""
deriving DecidableEq, Repr

/-- Embedding of `types.ToolCallResult`. -/
structure ToolCallResult where
  content : List ContentBlock := []
  isError : Bool := false
deriving DecidableEq, Repr

/-- Embedding of `types.Tool` (the input schema is opaque to the client). -/
structure Tool where
  name : String := ""
  description : String := ""
  inputSchema : String := ""
deriving DecidableEq, Repr

/-- What one `transport.SendRequest` call yields for a request whose result
should unmarshal into `α`: a JSON-RPC error, a well-formed payload, or a
payload that `json.Unmarshal` rejects. -/
inductive TransportReply (α : Type)
  | rpcError (code : Int) (message : String)
  | ok (v : α)
  | badPayload
deriving DecidableEq, Repr

/-- Embedding of `JSONRPCError.Error()`:
`fmt.Sprintf("JSON-RPC error %d: %s", e.Code, e.Message)`. -/
def jsonRPCErrorString (code : Int) (message : String) : String :=
  "JSON-RPC error " ++ toString code ++ ": " ++ message

/-- Embedding of the `Client` struct state: `Initialize` stores the server
name and version; no field records whether `Initialize` has run. -/
structure ClientState where
  serverName : String := ""
  serverVer : String := ""
deriving DecidableEq, Repr

/-- A `Client` that has just been built by `NewClient`: `Initialize` has never
returned on it. -/
def freshClient : ClientState := {}

/-- Outcome of `Client.CallTool`, which returns `(*types.ToolCallResult,
error)`:  `ok` is `(&result, nil)`, `okWithError` is `(&result, err)` (both
non-null), `failed` is `(nil, err)`, and `outOfRange` is the Go panic from
indexing `result.Content[0]` on an empty slice. -/
inductive CallOutcome
  | ok (result : ToolCallResult)
  | okWithError (result : ToolCallResult) (errMsg : String)
  | failed (errMsg : String)
  | outOfRange
deriving DecidableEq, Repr

/-- Embedding of `Client.ListTools`.  The first component is the list of
methods sent to the transport: the request is issued unconditionally, with no
initialization check.  The client state is a parameter only because the Go
method has a receiver; no branch reads it. -/
def clientListTools (c : ClientState) (reply : TransportReply (List Tool)) :
    List String × Except String (List Tool) :=
  (["tools/list"],
    match reply with
    | .rpcError code msg =>
      .error ("tools/list request failed: " ++ jsonRPCErrorString code msg)
    | .badPayload => .error "failed to parse tools/list response"
    | .ok tools => .ok tools)

/-- Embedding of `Client.CallTool`: send `tools/call`, propagate transport
errors, parse the result, and if `result.IsError` is set return the result
together with an error built from `result.Content[0].Text`. -/
def clientCallTool (c : ClientState) (name : String)
    (reply : TransportReply ToolCallResult) : List String × CallOutcome :=
  (["tools/call"],
    match reply with
    | .rpcError code msg =>
      .failed ("tools/call request failed: " ++ jsonRPCErrorString code msg)
    | .badPayload => .failed "failed to parse tools/call response"
    | .ok result =>
      if result.isError then
        match result.content with
        | [] => .outOfRange
        | b :: _ => .okWithError result ("tool execution failed: " ++ b.text)
      else
        .ok result)

/-- The spec's notion used by claim C8 ("the first text block is the
human-readable error reason"): the text of the first content block whose kind
is `text`.  Stated from the spec's words, for comparison with what
`clientCallTool` actually reads (`Content[0].Text`). -/
def specFirstTextBlockText (r : ToolCallResult) : Option String :=
  (r.content.find? (fun b => b.type = "text")).map (fun b => b.text)

/-- C6. The claim that `CallTool`/`ListTools` before `Initialize` fail with a
programming-error kind is false of the code: a client on which `Initialize`
has never returned still issues `tools/list` to the transport and returns the
listed tools.  (`Client` has no initialization flag at all.) -/
theorem handshake_required_counterexample :
    clientListTools freshClient
        (.ok [{ name := "detect", description := "object detection" }])
      = (["tools/list"],
          .ok [{ name := "detect", description := "object detection" }])
      ∧ ∀ e, (clientListTools freshClient
          (.ok [{ name := "detect", description := "object detection" }])).2
            ≠ .error e := by
  refine ⟨rfl, ?_⟩
  intro e h
  simp [clientListTools] at h

/-- C6 (amended). `Client` does not track initialization: `ListTools` and
`CallTool` issue their request to the transport unconditionally, and their
outcome is a function of the transport reply alone — it is identical for an
uninitialized and an initialized client. -/
theorem client_no_handshake_guard (c c' : ClientState) (name : String)
    (replyL : TransportReply (List Tool)) (replyC : TransportReply ToolCallResult) :
    (clientListTools c replyL).1 = ["tools/list"]
      ∧ (clientCallTool c name replyC).1 = ["tools/call"]
      ∧ clientListTools c replyL = clientListTools c' replyL
      ∧ clientCallTool c name replyC = clientCallTool c' name replyC := by
  exact ⟨rfl, rfl, rfl, rfl⟩

/-- C10. For an `is_error` result, `CallTool` returns the result paired with
an error exactly when the content sequence is non-empty; the `Content[0]`
access in the error branch is out of range when the content is empty. -/
theorem callTool_isError_content_bounds (c : ClientState) (name : String)
    (r : ToolCallResult) (hErr : r.isError = true) :
    (∀ b rest, r.content = b :: rest →
        (clientCallTool c name (.ok r)).2
          = .okWithError r ("tool execution failed: " ++ b.text))
      ∧ (r.content = [] → (clientCallTool c name (.ok r)).2 = .outOfRange) := by
  constructor
  · intro b rest hc
    simp [clientCallTool, hErr, hc]
  · intro hc
    simp [clientCallTool, hErr, hc]

/-- C10 witness: the bounds dichotomy evaluated at a one-block error result
and at an empty-content error result. -/
theorem callTool_isError_content_bounds_witness :
    (clientCallTool freshClient "read_file"
        (.ok { content := [{ type := "text", text := "no such file" }],
               isError := true })).2
      = .okWithError
          { content := [{ type := "text", text := "no such file" }],
            isError := true }
          ("tool execution failed: " ++ "no such file")
      ∧ (clientCallTool freshClient "read_file"
          (.ok { content := [], isError := true })).2 = .outOfRange := by
  constructor
  · exact (callTool_isError_content_bounds freshClient "read_file"
      { content := [{ type := "text", text := "no such file" }],
        isError := true } rfl).1 _ _ rfl
  · exact (callTool_isError_content_bounds freshClient "read_file"
      { content := [], isError := true } rfl).2 rfl

/-- C8. The claim that the returned error wraps the first TEXT block's text is
false of the code: `CallTool` reads `Content[0].Text`, the `Text` field of the
first block of any kind.  For an `is_error` result whose first block is an
image, the error message carries that block's empty `Text` field, not the text
of the first text block. -/
theorem callTool_firstTextBlock_counterexample :
    (clientCallTool freshClient "read_file"
        (.ok { content :=
                 [{ type := "image", data := "aGk=" },
                  { type := "text", text := "Invalid input: file not found" }],
               isError := true })).2
      = .okWithError
          { content :=
              [{ type := "image", data := "aGk=" },
               { type := "text", text := "Invalid input: file not found" }],
            isError := true }
          "tool execution failed: "
      ∧ specFirstTextBlockText
          { content :=
              [{ type := "image", data := "aGk=" },
               { type := "text", text := "Invalid input: file not found" }],
            isError := true }
        = some "Invalid input: file not found"
      ∧ ("tool execution failed: " : String)
          ≠ "tool execution failed: " ++ "Invalid input: file not found" := by
  refine ⟨rfl, rfl, ?_⟩
  decide

/-- C8 (amended). For every `tools/call` result with `is_error = true` whose
content is non-empty and whose FIRST block is a text block, `CallTool` returns
the non-null result together with a non-nil error whose message wraps the
first text block's text (which is then exactly `Content[0].Text`). -/
theorem callTool_isError_payload (c : ClientState) (name : String)
    (r : ToolCallResult) (b : ContentBlock) (rest : List ContentBlock)
    (hErr : r.isError = true) (hc : r.content = b :: rest)
    (hty : b.type = "text") :
    (clientCallTool c name (.ok r)).2
        = .okWithError r ("tool execution failed: " ++ b.text)
      ∧ specFirstTextBlockText r = some b.text := by
  constructor
  · simp [clientCallTool, hErr, hc]
  · simp [specFirstTextBlockText, hc, hty]

/-- C8 witness: scenario S2 — content
`[(text, "Invalid input: file not found")]`, `isError = true` — yields the
result together with the error wrapping the text. -/
theorem callTool_isError_payload_witness :
    (clientCallTool freshClient "validate"
        (.ok { content := [{ type := "text",
                             text := "Invalid input: file not found" }],
               isError := true })).2
      = .okWithError
          { content := [{ type := "text",
                          text := "Invalid input: file not found" }],
            isError := true }
          ("tool execution failed: " ++ "Invalid input: file not found")
      ∧ specFirstTextBlockText
          { content := [{ type := "text",
                          text := "Invalid input: file not found" }],
            isError := true }
        = some "Invalid input: file not found" :=
  callTool_isError_payload freshClient "validate"
    { content := [{ type := "text", text := "Invalid input: file not found" }],
      isError := true }
    { type := "text", text := "Invalid input: file not found" } [] rfl rfl rfl

/-! ## Manifest data model (`internal/pipeline/manifest.go`, `pkg/types`)

Go `time.Time` values are abstract instants, modelled as `Nat`; `float64`
durations as `ℚ`; the opaque `json.RawMessage` stage output as `Option
String`.  The Go map `Stages` is an association list with map-update
semantics. -/

/-- Embedding of `types.PipelineStage` (a closed string enumeration). -/
inductive PipelineStage
  | init
  | segmentPerson
  | landmarks
  | renderMotion
  | searchMusic
  | compose
  | complete
deriving DecidableEq, Repr

/-- The string value of each `types.PipelineStage` constant (used by
`fmt.Errorf("... %s ...", stage)`). -/
def stageName : PipelineStage → String
  | .init => "init"
  | .segmentPerson => "segment_person"
  | .landmarks => "estimate_landmarks"
  | .renderMotion => "render_motion"
  | .searchMusic => "search_music"
  | .compose => "compose"
  | .complete => "complete"

/-- Embedding of `types.StageStatus`. -/
inductive StageStatus
  | pending
  | running
  | completed
  | failed
  | skipped
deriving DecidableEq, Repr

/-- Embedding of `pipeline.StageState`. -/
structure StageState where
  status : StageStatus := .pending
  startedAt : Option Nat := none
  completedAt : Option Nat := none
  retryCount : Nat := 0
  error : String := ""
  output : Option String := none
deriving DecidableEq, Repr

/-- Embedding of `pipeline.PipelineResult`. -/
structure PipelineResult where
  segmentedImagePath : String := ""
  landmarksData : String := ""
  motionVideoPath : String := ""
  musicTracks : List String := []
  finalOutputPath : String := ""
deriving DecidableEq, Repr

/-- Embedding of `types.PipelineInput`. -/
structure PipelineInput where
  imagePath : String := ""
  duration : ℚ := 0
  userPrompt : String := ""
  outputDir : String := ""
  tempDir : String := ""
deriving DecidableEq, Repr

/-- Embedding of the stage-planning part of `llm.PipelineDecision` (the
remaining fields — parameters, moods, recovery table — are consumed only by
the domain stage bodies, which are collaborators here). -/
structure PipelineDecision where
  needSegment : Bool := true
  needLandmarks : Bool := true
  enableMotion : Bool := true
  needMusic : Bool := true
deriving DecidableEq, Repr

/-- Embedding of `llm.GetDefaultDecision` (stage-planning fields). -/
def getDefaultDecision : PipelineDecision :=
  { needSegment := true, needLandmarks := true,
    enableMotion := true, needMusic := true }

/-- Embedding of `llm.LLMAnalysis` as stored in the manifest: the `Decision`
pointer may be nil. -/
structure LLMAnalysis where
  decision : Option PipelineDecision := none
deriving DecidableEq, Repr

/-- Embedding of `pipeline.Manifest`. -/
structure Manifest where
  pipelineID : String := ""
  createdAt : Nat := 0
  updatedAt : Nat := 0
  input : PipelineInput := {}
  llmAnalysis : Option LLMAnalysis := none
  currentStage : PipelineStage := .init
  stages : List (PipelineStage × StageState) := []
  result : Option PipelineResult := none
deriving DecidableEq, Repr

/-- Lookup in the Go map `Manifest.Stages` (nil pointer for a missing key). -/
def stagesFind (l : List (PipelineStage × StageState)) (s : PipelineStage) :
    Option StageState :=
  (l.find? (fun e => e.1 = s)).map (fun e => e.2)

/-- Go map assignment `m.Stages[stage] = state`: replace the existing binding
or add one. -/
def stagesSet (l : List (PipelineStage × StageState)) (s : PipelineStage)
    (st : StageState) : List (PipelineStage × StageState) :=
  match l with
  | [] => [(s, st)]
  | (k, v) :: rest =>
    if k = s then (s, st) :: rest else (k, v) :: stagesSet rest s st

lemma stagesFind_set_self (l : List (PipelineStage × StageState))
    (s : PipelineStage) (st : StageState) :
    stagesFind (stagesSet l s st) s = some st := by
  induction l with
  | nil => simp [stagesSet, stagesFind]
  | cons e rest ih =>
    obtain ⟨k, v⟩ := e
    by_cases hk : k = s
    · subst hk; simp [stagesSet, stagesFind]
    · simp [stagesSet, stagesFind, hk] at ih ⊢
      simpa [stagesFind] using ih

lemma stagesFind_set_other (l : List (PipelineStage × StageState))
    (s t : PipelineStage) (st : StageState) (hne : t ≠ s) :
    stagesFind (stagesSet l s st) t = stagesFind l t := by
  induction l with
  | nil => simp [stagesSet, stagesFind, Ne.symm hne]
  | cons e rest ih =>
    obtain ⟨k, v⟩ := e
    by_cases hk : k = s
    · subst hk
      simp [stagesSet, stagesFind, Ne.symm hne]
    · by_cases hkt : k = t
      · subst hkt; simp [stagesSet, stagesFind, hk]
      · simp [stagesSet, stagesFind, hk, hkt] at ih ⊢
        simpa [stagesFind, hkt] using ih

/-- Embedding of `Manifest.GetStageState`: the existing state or a fresh
pending one. -/
def Manifest.getStageState (m : Manifest) (s : PipelineStage) : StageState :=
  (stagesFind m.stages s).getD {}

/-- Embedding of `Manifest.StartStage`. -/
def Manifest.startStage (m : Manifest) (s : PipelineStage) (now : Nat) :
    Manifest :=
  let st := m.getStageState s
  { m with
      stages := stagesSet m.stages s
        { st with status := .running, startedAt := some now },
      currentStage := s }

/-- Embedding of `Manifest.CompleteStage` (the output argument arrives already
serialized; `none` models a nil `output`, which leaves the field alone). -/
def Manifest.completeStage (m : Manifest) (s : PipelineStage)
    (output : Option String) (now : Nat) : Manifest :=
  let st := m.getStageState s
  let st1 := { st with status := StageStatus.completed, completedAt := some now }
  let st2 := match output with
    | some data => { st1 with output := some data }
    | none => st1
  { m with stages := stagesSet m.stages s st2 }

/-- Embedding of `Manifest.FailStage`. -/
def Manifest.failStage (m : Manifest) (s : PipelineStage) (errMsg : String) :
    Manifest :=
  let st := m.getStageState s
  { m with
      stages := stagesSet m.stages s
        { st with status := .failed, error := errMsg,
                  retryCount := st.retryCount + 1 } }

/-- Embedding of `Manifest.SkipStage`. -/
def Manifest.skipStage (m : Manifest) (s : PipelineStage) : Manifest :=
  let st := m.getStageState s
  { m with stages := stagesSet m.stages s { st with status := .skipped } }

/-- Embedding of `Manifest.IsStageCompleted`. -/
def Manifest.isStageCompleted (m : Manifest) (s : PipelineStage) : Bool :=
  match stagesFind m.stages s with
  | some st => st.status = StageStatus.completed
  | none => false

/-- Embedding of `Manifest.CanRetryStage`. -/
def Manifest.canRetryStage (m : Manifest) (s : PipelineStage)
    (maxRetries : Nat) : Bool :=
  match stagesFind m.stages s with
  | none => true
  | some st => st.retryCount < maxRetries

/-- Embedding of `pipeline.NewManifest`. -/
def newManifest (pid : String) (input : PipelineInput) (now : Nat) : Manifest :=
  { pipelineID := pid, createdAt := now, updatedAt := now, input := input,
    llmAnalysis := none, currentStage := .init, stages := [], result := none }

/-! ## File system and atomic manifest save -/

/-- The content of one on-disk file: either the bytes `json.MarshalIndent`
produced from a `Manifest` (which `json.Unmarshal` round-trips), or any other
byte string (which fails to parse as a manifest). -/
inductive FileData
  | manifestFile (m : Manifest)
  | otherFile (s : String)
deriving DecidableEq, Repr

/-- A file system as a path-keyed association list. -/
def FS := List (String × FileData)
deriving instance DecidableEq, Repr for FS

/-- Read the file at `p`, `none` when absent. -/
def fsLookup (fs : FS) (p : String) : Option FileData :=
  (List.find? (fun e => e.1 = p) fs).map (fun e => e.2)

/-- `os.WriteFile p d`: create or truncate-and-replace. -/
def fsWrite (fs : FS) (p : String) (d : FileData) : FS :=
  match fs with
  | [] => [(p, d)]
  | (k, v) :: rest =>
    if k = p then (p, d) :: rest else (k, v) :: fsWrite rest p d

/-- `os.Remove p`. -/
def fsRemove (fs : FS) (p : String) : FS :=
  List.filter (fun e => !(e.1 = p : Bool)) fs

lemma fsLookup_write_self (fs : FS) (p : String) (d : FileData) :
    fsLookup (fsWrite fs p d) p = some d := by
  induction fs with
  | nil => simp [fsWrite, fsLookup]
  | cons e rest ih =>
    obtain ⟨k, v⟩ := e
    by_cases hk : k = p
    · subst hk; simp [fsWrite, fsLookup]
    · simp [fsWrite, fsLookup, hk] at ih ⊢
      simpa [fsLookup] using ih

lemma fsLookup_write_other (fs : FS) (p q : String) (d : FileData)
    (hne : q ≠ p) : fsLookup (fsWrite fs p d) q = fsLookup fs q := by
  induction fs with
  | nil => simp [fsWrite, fsLookup, Ne.symm hne]
  | cons e rest ih =>
    obtain ⟨k, v⟩ := e
    by_cases hk : k = p
    · subst hk
      simp [fsWrite, fsLookup, Ne.symm hne]
    · by_cases hkq : k = q
      · subst hkq; simp [fsWrite, fsLookup, hk]
      · simp [fsWrite, fsLookup, hk, hkq] at ih ⊢
        simpa [fsLookup, hkq] using ih

lemma fsLookup_remove_self (fs : FS) (p : String) :
    fsLookup (fsRemove fs p) p = none := by
  induction fs with
  | nil => simp [fsRemove, fsLookup]
  | cons e rest ih =>
    obtain ⟨k, v⟩ := e
    by_cases hk : k = p
    · subst hk; simpa [fsRemove, fsLookup] using ih
    · simp only [fsRemove, List.filter] at ih ⊢
      simp [fsLookup, hk]

lemma fsLookup_remove_other (fs : FS) (p q : String) (hne : q ≠ p) :
    fsLookup (fsRemove fs p) q = fsLookup fs q := by
  induction fs with
  | nil => simp [fsRemove, fsLookup]
  | cons e rest ih =>
    obtain ⟨k, v⟩ := e
    by_cases hk : k = p
    · subst hk
      simp [fsRemove, fsLookup, Ne.symm hne] at ih ⊢
      exact ih
    · by_cases hkq : k = q
      · subst hkq; simp [fsRemove, fsLookup, hk]
      · simp [fsRemove, fsLookup, hk, hkq] at ih ⊢
        simpa [fsLookup, hkq] using ih

lemma path_ne_tmp (path : String) : path ≠ path ++ ".tmp" := by
  intro h
  have hlen := congrArg String.length h
  rw [String.length_append] at hlen
  have : String.length ".tmp" = 4 := rfl
  omega

/-- `Manifest.Save` step 1: stamp `UpdatedAt` and serialize
(`json.MarshalIndent`, which cannot fail on this struct). -/
def manifestSerialized (m : Manifest) (now : Nat) : FileData :=
  .manifestFile { m with updatedAt := now }

/-- `Manifest.Save` step 2: the file system right after
`os.WriteFile(path + ".tmp", data, 0644)` succeeded and before `os.Rename` —
the state a crash between serialization and rename leaves behind. -/
def manifestSaveTmpWritten (m : Manifest) (now : Nat) (path : String)
    (fs : FS) : FS :=
  fsWrite fs (path ++ ".tmp") (manifestSerialized m now)

/-- Embedding of `Manifest.Save`: write the serialized manifest to
`path + ".tmp"`, then rename onto `path`; on rename failure remove the temp
file and return an error.  `writeOk`/`renameOk` model whether the two
operating-system calls succeed. -/
def manifestSave (m : Manifest) (now : Nat) (path : String) (fs : FS)
    (writeOk renameOk : Bool) : Except String Unit × FS :=
  if writeOk then
    let fs1 := manifestSaveTmpWritten m now path fs
    if renameOk then
      (.ok (),
        fsWrite (fsRemove fs1 (path ++ ".tmp")) path (manifestSerialized m now))
    else
      (.error "failed to rename manifest", fsRemove fs1 (path ++ ".tmp"))
  else
    (.error "failed to write manifest", fs)

/-- Embedding of the parse step of `LoadManifest` applied to one file's
bytes. -/
def parseManifestFile : FileData → Option Manifest
  | .manifestFile m => some m
  | .otherFile _ => none

/-- Embedding of `pipeline.LoadManifest`: absent file yields `none`,
unparseable file fails. -/
def loadManifest (fs : FS) (path : String) : Except String (Option Manifest) :=
  match fsLookup fs path with
  | none => .ok none
  | some (.manifestFile m) => .ok (some m)
  | some (.otherFile _) => .error "failed to parse manifest"

/-- C1. `Save` is atomic: (1) on success the serialized manifest replaces
`path` and the temp file is gone; (2) a crash between serialization+temp-write
and the rename leaves the prior manifest at `path` byte-identical and still
parseable to the pre-crash state; (3) when the rename fails, `Save` returns an
error, the temp file has been removed, and `path` still holds the prior
manifest. -/
theorem manifest_save_atomic (m m₀ : Manifest) (now : Nat) (path : String)
    (fs : FS) (hprior : fsLookup fs path = some (.manifestFile m₀)) :
    ((manifestSave m now path fs true true).1 = .ok ()
        ∧ fsLookup (manifestSave m now path fs true true).2 path
            = some (manifestSerialized m now)
        ∧ fsLookup (manifestSave m now path fs true true).2 (path ++ ".tmp")
            = none)
      ∧ (fsLookup (manifestSaveTmpWritten m now path fs) path
            = some (.manifestFile m₀)
          ∧ (fsLookup (manifestSaveTmpWritten m now path fs) path).bind
              parseManifestFile = some m₀)
      ∧ ((manifestSave m now path fs true false).1
            = .error "failed to rename manifest"
          ∧ fsLookup (manifestSave m now path fs true false).2 (path ++ ".tmp")
              = none
          ∧ fsLookup (manifestSave m now path fs true false).2 path
              = some (.manifestFile m₀)) := by
  have hne := path_ne_tmp path
  refine ⟨⟨rfl, ?_, ?_⟩, ⟨?_, ?_⟩, rfl, ?_, ?_⟩
  · simp [manifestSave, fsLookup_write_self]
  · simp only [manifestSave, if_pos, if_true]
    rw [fsLookup_write_other _ _ _ _ (Ne.symm hne),
      fsLookup_remove_self]
  · simpa [manifestSaveTmpWritten, fsLookup_write_other _ _ _ _ hne]
      using hprior
  · rw [manifestSaveTmpWritten, fsLookup_write_other _ _ _ _ hne, hprior]
    rfl
  · simp [manifestSave, fsLookup_remove_self]
  · show fsLookup (fsRemove (manifestSaveTmpWritten m now path fs)
        (path ++ ".tmp")) path = some (FileData.manifestFile m₀)
    rw [fsLookup_remove_other _ _ _ hne, manifestSaveTmpWritten,
      fsLookup_write_other _ _ _ _ hne]
    exact hprior

/-- C1 witness: the atomicity theorem applied to a concrete manifest, path and
one-file file system. -/
theorem manifest_save_atomic_witness :
    fsLookup [("state/manifest.json",
        FileData.manifestFile { pipelineID := "p0" })] "state/manifest.json"
      = some (.manifestFile { pipelineID := "p0" })
    ∧ ((manifestSave { pipelineID := "p1" } 7 "state/manifest.json"
          [("state/manifest.json",
            FileData.manifestFile { pipelineID := "p0" })] true true).1
        = .ok ()
      ∧ fsLookup (manifestSave { pipelineID := "p1" } 7 "state/manifest.json"
          [("state/manifest.json",
            FileData.manifestFile { pipelineID := "p0" })] true true).2
          "state/manifest.json"
        = some (manifestSerialized { pipelineID := "p1" } 7)
      ∧ fsLookup (manifestSave { pipelineID := "p1" } 7 "state/manifest.json"
          [("state/manifest.json",
            FileData.manifestFile { pipelineID := "p0" })] true true).2
          ("state/manifest.json" ++ ".tmp")
        = none)
    ∧ (fsLookup (manifestSaveTmpWritten { pipelineID := "p1" } 7
          "state/manifest.json"
          [("state/manifest.json",
            FileData.manifestFile { pipelineID := "p0" })]) "state/manifest.json"
        = some (.manifestFile { pipelineID := "p0" })
      ∧ (fsLookup (manifestSaveTmpWritten { pipelineID := "p1" } 7
          "state/manifest.json"
          [("state/manifest.json",
            FileData.manifestFile { pipelineID := "p0" })]) "state/manifest.json").bind
          parseManifestFile
        = some { pipelineID := "p0" }) := by
  refine ⟨rfl, ?_⟩
  have h := manifest_save_atomic { pipelineID := "p1" } { pipelineID := "p0" }
    7 "state/manifest.json"
    [("state/manifest.json", FileData.manifestFile { pipelineID := "p0" })] rfl
  exact ⟨h.1, h.2.1⟩

/-! ## Scripted pipeline (`internal/pipeline/pipeline.go`, lightweight mode)

`Pipeline.Execute` loads (or creates) the manifest, plans the stage list from
the decision flags, and runs the stages sequentially: completed stages are
skipped, a stage past its retry budget aborts with a bound-exceeded error,
otherwise the stage is marked running, its body (`StepFunc`, a domain
collaborator) runs, and the manifest is saved — after the body returns.

The run is instrumented with an event trace: one `invoke` event per stage-body
call (recording the disk state and the in-memory manifest just before
`StartStage`), and one `persist` event per `manifest.Save` (recording the
manifest as written, i.e. with `UpdatedAt` stamped). -/

/-- Embedding of `pipeline.StepFunc`: a stage body mutates the manifest (by
pointer in Go) and returns an optional error. -/
def StepFun := Manifest → Manifest × Option String

/-- The stage plan computed in `Execute` from the decision flags; the compose
stage is always included. -/
def planStages (d : PipelineDecision) : List PipelineStage :=
  (if d.needSegment then [PipelineStage.segmentPerson] else [])
    ++ (if d.needLandmarks then [PipelineStage.landmarks] else [])
    ++ (if d.enableMotion then [PipelineStage.renderMotion] else [])
    ++ (if d.needMusic then [PipelineStage.searchMusic] else [])
    ++ [PipelineStage.compose]

/-- Events observed during one `Execute` run. -/
inductive PipeEvent
  | invoke (s : PipelineStage) (disk : FS) (mem : Manifest)
  | persist (m : Manifest)
deriving DecidableEq, Repr

/-- The stages whose bodies were invoked, in order. -/
def invokedStages (evs : List PipeEvent) : List PipelineStage :=
  evs.filterMap (fun e => match e with
    | .invoke s _ _ => some s
    | .persist _ => none)

/-- The manifests passed to `manifest.Save`, in order (as written to disk,
`UpdatedAt` stamped). -/
def persistedManifests (evs : List PipeEvent) : List Manifest :=
  evs.filterMap (fun e => match e with
    | .invoke _ _ _ => none
    | .persist m => some m)

/-- Embedding of `Pipeline.executeStageWithRetry`: look up the step for the
stage (`GetStepForStage` fails on an unknown stage, before `StartStage`),
mark the stage running, run the body.  The boolean reports whether the body
was invoked. -/
def executeStageWithRetry (body? : Option StepFun) (m : Manifest)
    (s : PipelineStage) (now : Nat) : Manifest × Option String × Bool :=
  match body? with
  | none => (m, some ("unknown stage: " ++ stageName s), false)
  | some body =>
    let m1 := m.startStage s now
    let r := body m1
    (r.1, r.2, true)

/-- Outcome of the stage loop inside `Execute`. -/
inductive StageLoopOutcome
  | finished
  | failed (msg : String)
deriving DecidableEq, Repr

/-- Embedding of the stage loop of `Pipeline.Execute`:  skip completed
stages; abort when the retry budget is exhausted; otherwise run the stage,
and on failure `FailStage` + save + halt, on success save and continue. -/
def execStages (bodies : PipelineStage → Option StepFun) (maxRetries : Nat)
    (path : String) (now : Nat) :
    List PipelineStage → Manifest → FS →
      StageLoopOutcome × Manifest × FS × List PipeEvent
  | [], m, fs => (.finished, m, fs, [])
  | s :: rest, m, fs =>
    if m.isStageCompleted s then
      execStages bodies maxRetries path now rest m fs
    else if ¬ m.canRetryStage s maxRetries then
      (.failed ("stage " ++ stageName s ++ " exceeded max retries ("
          ++ toString maxRetries ++ ")"), m, fs, [])
    else
      match executeStageWithRetry (bodies s) m s now with
      | (m2, some e, invoked) =>
        let m3 := m2.failStage s e
        let fs2 := (manifestSave m3 now path fs true true).2
        (.failed ("stage " ++ stageName s ++ " failed: " ++ e), m3, fs2,
          (if invoked then [PipeEvent.invoke s fs m] else [])
            ++ [PipeEvent.persist { m3 with updatedAt := now }])
      | (m2, none, invoked) =>
        let fs2 := (manifestSave m2 now path fs true true).2
        let r := execStages bodies maxRetries path now rest m2 fs2
        (r.1, r.2.1, r.2.2.1,
          (if invoked then [PipeEvent.invoke s fs m] else [])
            ++ PipeEvent.persist { m2 with updatedAt := now } :: r.2.2.2)

/-- The decision `Execute` uses: the one stored in the manifest when an LLM
analysis is present (its nil `Decision` pointer would be dereferenced by the
planning code — modelled as `none`), the default decision otherwise. -/
def decisionOf (m : Manifest) : Option PipelineDecision :=
  match m.llmAnalysis with
  | some a => a.decision
  | none => some getDefaultDecision

/-- Outcome of one `Pipeline.Execute` run. -/
inductive PipeOutcome
  | ok (r : Option PipelineResult)
  | err (msg : String)
  | nilDecisionCrash
deriving DecidableEq, Repr

/-- Embedding of `Pipeline.Execute` (lightweight mode): load or create the
manifest, plan the stages, run the stage loop, and on completion stamp
`current_stage = complete` and save. -/
def pipelineExecute (bodies : PipelineStage → Option StepFun)
    (maxRetries : Nat) (path pid : String) (input : PipelineInput) (now : Nat)
    (fs : FS) : PipeOutcome × FS × List PipeEvent :=
  match loadManifest fs path with
  | .error e => (.err ("failed to load manifest: " ++ e), fs, [])
  | .ok mopt =>
    let m := match mopt with
      | some m0 => m0
      | none => newManifest pid input now
    match decisionOf m with
    | none => (.nilDecisionCrash, fs, [])
    | some d =>
      let r := execStages bodies maxRetries path now (planStages d) m fs
      match r.1 with
      | .failed msg => (.err msg, r.2.2.1, r.2.2.2)
      | .finished =>
        let m2 := { r.2.1 with currentStage := PipelineStage.complete }
        let fs2 := (manifestSave m2 now path r.2.2.1 true true).2
        (.ok m2.result, fs2,
          r.2.2.2 ++ [PipeEvent.persist { m2 with updatedAt := now }])

/-- The disk state after `n` invocations of `Execute` against the same
manifest path (same pipeline id, same inputs, same bodies). -/
def pipelineFSAfter (bodies : PipelineStage → Option StepFun)
    (maxRetries : Nat) (path pid : String) (input : PipelineInput) (now : Nat)
    (fs0 : FS) : Nat → FS
  | 0 => fs0
  | n + 1 =>
    (pipelineExecute bodies maxRetries path pid input now
      (pipelineFSAfter bodies maxRetries path pid input now fs0 n)).2.1

/-- The `n`-th `Execute` invocation (0-based) in that sequence. -/
def pipelineRun (bodies : PipelineStage → Option StepFun) (maxRetries : Nat)
    (path pid : String) (input : PipelineInput) (now : Nat) (fs0 : FS)
    (n : Nat) : PipeOutcome × FS × List PipeEvent :=
  pipelineExecute bodies maxRetries path pid input now
    (pipelineFSAfter bodies maxRetries path pid input now fs0 n)

/-- A stage body that always fails with error `e`, mutating nothing (the
collaborator shape claim C2 quantifies over). -/
def alwaysFailBody (e : String) : StepFun := fun m => (m, some e)

/-- A stage body that succeeds, recording its own completion with output `o`
(all five domain step functions call `manifest.CompleteStage` on success). -/
def completeOwnBody (t : PipelineStage) (o : String) (tb : Nat) : StepFun :=
  fun m => (m.completeStage t (some o) tb, none)

/-- Bodies that leave every other stage's state alone — the framing the
sequencer contract assumes of the domain collaborators. -/
def bodiesPreserveOthers (bodies : PipelineStage → Option StepFun) : Prop :=
  ∀ t b m u, bodies t = some b → u ≠ t →
    stagesFind ((b m).1).stages u = stagesFind m.stages u

/-! ### Frame lemmas for the manifest mutators -/

lemma startStage_find_other (m : Manifest) (s u : PipelineStage) (now : Nat)
    (hne : u ≠ s) :
    stagesFind (m.startStage s now).stages u = stagesFind m.stages u := by
  simp [Manifest.startStage, stagesFind_set_other _ _ _ _ hne]

lemma completeStage_find_other (m : Manifest) (s u : PipelineStage)
    (o : Option String) (now : Nat) (hne : u ≠ s) :
    stagesFind (m.completeStage s o now).stages u = stagesFind m.stages u := by
  cases o <;> simp [Manifest.completeStage, stagesFind_set_other _ _ _ _ hne]

lemma failStage_find_other (m : Manifest) (s u : PipelineStage) (e : String)
    (hne : u ≠ s) :
    stagesFind (m.failStage s e).stages u = stagesFind m.stages u := by
  simp [Manifest.failStage, stagesFind_set_other _ _ _ _ hne]

lemma startStage_find_self (m : Manifest) (s : PipelineStage) (now : Nat) :
    stagesFind (m.startStage s now).stages s
      = some { m.getStageState s with
                 status := .running, startedAt := some now } := by
  simp [Manifest.startStage, stagesFind_set_self]

lemma completeStage_find_self (m : Manifest) (s : PipelineStage) (o : String)
    (now : Nat) :
    stagesFind (m.completeStage s (some o) now).stages s
      = some { m.getStageState s with
                 status := .completed, completedAt := some now,
                 output := some o } := by
  simp [Manifest.completeStage, stagesFind_set_self]

lemma failStage_find_self (m : Manifest) (s : PipelineStage) (e : String) :
    stagesFind (m.failStage s e).stages s
      = some { m.getStageState s with
                 status := .failed, error := e,
                 retryCount := (m.getStageState s).retryCount + 1 } := by
  simp [Manifest.failStage, stagesFind_set_self]

lemma isStageCompleted_congr {m m' : Manifest} {u : PipelineStage}
    (h : stagesFind m'.stages u = stagesFind m.stages u) :
    m'.isStageCompleted u = m.isStageCompleted u := by
  simp [Manifest.isStageCompleted, h]

lemma startStage_llm (m : Manifest) (s : PipelineStage) (now : Nat) :
    (m.startStage s now).llmAnalysis = m.llmAnalysis := rfl

lemma completeStage_llm (m : Manifest) (s : PipelineStage) (o : Option String)
    (now : Nat) : (m.completeStage s o now).llmAnalysis = m.llmAnalysis := by
  cases o <;> rfl

lemma failStage_llm (m : Manifest) (s : PipelineStage) (e : String) :
    (m.failStage s e).llmAnalysis = m.llmAnalysis := rfl

lemma planStages_nodup (d : PipelineDecision) : (planStages d).Nodup := by
  obtain ⟨a, b, c, e⟩ := d
  cases a <;> cases b <;> cases c <;> cases e <;> decide

/-! ### C3: idempotent stage execution -/

lemma invokedStages_append (l1 l2 : List PipeEvent) :
    invokedStages (l1 ++ l2) = invokedStages l1 ++ invokedStages l2 := by
  simp [invokedStages]

lemma execStages_invoked_sublist (bodies : PipelineStage → Option StepFun)
    (mr : Nat) (path : String) (now : Nat)
    (hframe : bodiesPreserveOthers bodies) :
    ∀ (stages : List PipelineStage) (m : Manifest) (fs : FS), stages.Nodup →
      List.Sublist
        (invokedStages (execStages bodies mr path now stages m fs).2.2.2)
        (stages.filter (fun t => !(m.isStageCompleted t))) := by
  intro stages
  induction stages with
  | nil => intro m fs _; simp [execStages, invokedStages]
  | cons s rest ih =>
    intro m fs hnd
    have hndr : rest.Nodup := (List.nodup_cons.mp hnd).2
    have hsr : s ∉ rest := (List.nodup_cons.mp hnd).1
    by_cases hcomp : m.isStageCompleted s
    · rw [List.filter_cons_of_neg (by simp [hcomp])]
      simpa [execStages, hcomp] using ih m fs hndr
    · rw [List.filter_cons_of_pos (by simp [hcomp])]
      by_cases hcr : m.canRetryStage s mr
      · rcases hb : bodies s with _ | b
        · refine List.Sublist.cons _ ?_
          simp [execStages, hcomp, hcr, executeStageWithRetry, hb,
            invokedStages]
        · rcases hres : (b (m.startStage s now)) with ⟨m2, e?⟩
          cases e? with
          | some e =>
            simp only [execStages, hcomp, hcr, executeStageWithRetry, hb,
              if_neg, if_pos, Bool.not_eq_true, hres]
            simp [hcomp, hcr, invokedStages]
          | none =>
            have hfind : ∀ u, u ≠ s →
                stagesFind m2.stages u = stagesFind m.stages u := by
              intro u hu
              have h1 := hframe s b (m.startStage s now) u hb hu
              rw [hres] at h1
              simpa [startStage_find_other m s u now hu] using h1
            have hfeq : rest.filter (fun t => !(m2.isStageCompleted t))
                = rest.filter (fun t => !(m.isStageCompleted t)) := by
              refine List.filter_congr ?_
              intro t ht
              have : t ≠ s := fun h => hsr (h ▸ ht)
              rw [isStageCompleted_congr (hfind t this)]
            have ihr := ih m2 (manifestSave m2 now path fs true true).2 hndr
            rw [hfeq] at ihr
            simp only [execStages, hcomp, hcr, executeStageWithRetry, hb,
              hres, if_pos, if_neg]
            simp only [hcomp, hcr, if_neg, if_pos, Bool.false_eq_true,
              not_false_eq_true, if_true]
            refine ?_
            simpa [invokedStages] using List.Sublist.cons₂ s ihr
      · simp [execStages, hcomp, hcr, invokedStages]

lemma pipelineExecute_invoked (bodies : PipelineStage → Option StepFun)
    (mr : Nat) (path pid : String) (input : PipelineInput) (now : Nat)
    (fs : FS) (m : Manifest) (d : PipelineDecision)
    (hload : fsLookup fs path = some (.manifestFile m))
    (hdec : decisionOf m = some d) :
    invokedStages (pipelineExecute bodies mr path pid input now fs).2.2
      = invokedStages
          (execStages bodies mr path now (planStages d) m fs).2.2.2 := by
  simp only [pipelineExecute, loadManifest, hload, hdec]
  rcases hout : (execStages bodies mr path now (planStages d) m fs).1 with _ | msg
  · simp [hout, invokedStages_append, invokedStages]
  · simp [hout]

/-- C3. Idempotence of the stage loop: re-running `Execute` against a manifest
in which stage `S` is completed never invokes `S`'s body, and the stages whose
bodies are invoked form an in-order sublist of the planned stages that are not
completed in that manifest.  (Bodies are collaborators; the hypothesis says
each body touches only its own stage's state, which all five step functions
satisfy.) -/
theorem execute_idempotent (bodies : PipelineStage → Option StepFun)
    (mr : Nat) (path pid : String) (input : PipelineInput) (now : Nat)
    (fs : FS) (m : Manifest) (d : PipelineDecision) (S : PipelineStage)
    (hframe : bodiesPreserveOthers bodies)
    (hload : fsLookup fs path = some (.manifestFile m))
    (hdec : decisionOf m = some d)
    (hS : m.isStageCompleted S = true) :
    S ∉ invokedStages (pipelineExecute bodies mr path pid input now fs).2.2
      ∧ List.Sublist
          (invokedStages (pipelineExecute bodies mr path pid input now fs).2.2)
          ((planStages d).filter (fun t => !(m.isStageCompleted t))) := by
  have hsub :
      List.Sublist
        (invokedStages (pipelineExecute bodies mr path pid input now fs).2.2)
        ((planStages d).filter (fun t => !(m.isStageCompleted t))) := by
    rw [pipelineExecute_invoked bodies mr path pid input now fs m d hload hdec]
    exact execStages_invoked_sublist bodies mr path now hframe
      (planStages d) m fs (planStages_nodup d)
  refine ⟨?_, hsub⟩
  intro hmem
  have := hsub.subset hmem
  rw [List.mem_filter] at this
  simp [hS] at this

/-! ### C2: retry bound -/

lemma manifestSave_lookup (m : Manifest) (now : Nat) (path : String)
    (fs : FS) :
    fsLookup (manifestSave m now path fs true true).2 path
      = some (.manifestFile { m with updatedAt := now }) := by
  simp [manifestSave, manifestSerialized, fsLookup_write_self]

/-- The manifest after a run of succeeding stage bodies over `pre`: each body
starts its stage and records its own completion. -/
def succFold (outs : PipelineStage → String) (tb now : Nat)
    (pre : List PipelineStage) (m : Manifest) : Manifest :=
  pre.foldl
    (fun acc t => (acc.startStage t now).completeStage t (some (outs t)) tb) m

lemma succFold_find_other (outs : PipelineStage → String) (tb now : Nat) :
    ∀ (pre : List PipelineStage) (m : Manifest) (u : PipelineStage),
      u ∉ pre →
      stagesFind (succFold outs tb now pre m).stages u
        = stagesFind m.stages u := by
  intro pre
  induction pre with
  | nil => intro m u _; rfl
  | cons t pre' ih =>
    intro m u hu
    have hut : u ≠ t := fun h => hu (h ▸ List.mem_cons_self t pre')
    have hupre : u ∉ pre' := fun h => hu (List.mem_cons_of_mem t h)
    show stagesFind (succFold outs tb now pre'
        ((m.startStage t now).completeStage t (some (outs t)) tb)).stages u = _
    rw [ih _ u hupre, completeStage_find_other _ _ _ _ _ hut,
      startStage_find_other _ _ _ _ hut]

lemma succFold_llm (outs : PipelineStage → String) (tb now : Nat) :
    ∀ (pre : List PipelineStage) (m : Manifest),
      (succFold outs tb now pre m).llmAnalysis = m.llmAnalysis := by
  intro pre
  induction pre with
  | nil => intro m; rfl
  | cons t pre' ih =>
    intro m
    show (succFold outs tb now pre' _).llmAnalysis = _
    rw [ih, completeStage_llm, startStage_llm]

lemma succFold_completed (outs : PipelineStage → String) (tb now : Nat) :
    ∀ (pre : List PipelineStage) (m : Manifest), pre.Nodup →
      ∀ t ∈ pre, (succFold outs tb now pre m).isStageCompleted t = true := by
  intro pre
  induction pre with
  | nil => intro m _ t ht; cases ht
  | cons s pre' ih =>
    intro m hnd t ht
    have hsp : s ∉ pre' := (List.nodup_cons.mp hnd).1
    have hndp : pre'.Nodup := (List.nodup_cons.mp hnd).2
    rcases List.mem_cons.mp ht with h | h
    · subst h
      show ((succFold outs tb now pre' _).isStageCompleted t) = true
      rw [Manifest.isStageCompleted, succFold_find_other _ _ _ _ _ _ hsp,
        completeStage_find_self]
      rfl
    · exact ih _ hndp t h

lemma execStages_skip_prefix (bodies : PipelineStage → Option StepFun)
    (mr : Nat) (path : String) (now : Nat) :
    ∀ (pre rest : List PipelineStage) (m : Manifest) (fs : FS),
      (∀ t ∈ pre, m.isStageCompleted t = true) →
      execStages bodies mr path now (pre ++ rest) m fs
        = execStages bodies mr path now rest m fs := by
  intro pre
  induction pre with
  | nil => intro rest m fs _; rfl
  | cons s pre' ih =>
    intro rest m fs hcomp
    have hs : m.isStageCompleted s = true := hcomp s (List.mem_cons_self s pre')
    show execStages bodies mr path now (s :: (pre' ++ rest)) m fs = _
    rw [execStages, if_pos hs]
    exact ih rest m fs (fun t ht => hcomp t (List.mem_cons_of_mem s ht))

lemma execStages_succ_prefix (bodies : PipelineStage → Option StepFun)
    (mr : Nat) (path : String) (now : Nat) (outs : PipelineStage → String)
    (tb : Nat) :
    ∀ (pre rest : List PipelineStage) (m : Manifest) (fs : FS), pre.Nodup →
      (∀ t ∈ pre, bodies t = some (completeOwnBody t (outs t) tb)) →
      (∀ t ∈ pre, stagesFind m.stages t = none) →
      ∃ fsMid evsPre, invokedStages evsPre = pre ∧
        execStages bodies mr path now (pre ++ rest) m fs
          = ((execStages bodies mr path now rest
                (succFold outs tb now pre m) fsMid).1,
             (execStages bodies mr path now rest
                (succFold outs tb now pre m) fsMid).2.1,
             (execStages bodies mr path now rest
                (succFold outs tb now pre m) fsMid).2.2.1,
             evsPre ++ (execStages bodies mr path now rest
                (succFold outs tb now pre m) fsMid).2.2.2) := by
  intro pre
  induction pre with
  | nil =>
    intro rest m fs _ _ _
    exact ⟨fs, [], rfl, by simp [succFold, invokedStages]⟩
  | cons s pre' ih =>
    intro rest m fs hnd hbody hfresh
    have hsp : s ∉ pre' := (List.nodup_cons.mp hnd).1
    have hndp : pre'.Nodup := (List.nodup_cons.mp hnd).2
    have hfs : stagesFind m.stages s = none :=
      hfresh s (List.mem_cons_self s pre')
    have hncomp : m.isStageCompleted s = false := by
      simp [Manifest.isStageCompleted, hfs]
    have hcr : m.canRetryStage s mr = true := by
      simp [Manifest.canRetryStage, hfs]
    have hbs : bodies s = some (completeOwnBody s (outs s) tb) :=
      hbody s (List.mem_cons_self s pre')
    set m2 := (m.startStage s now).completeStage s (some (outs s)) tb with hm2
    have hfresh2 : ∀ t ∈ pre', stagesFind m2.stages t = none := by
      intro t ht
      have hts : t ≠ s := fun h => hsp (h ▸ ht)
      rw [hm2, completeStage_find_other _ _ _ _ _ hts,
        startStage_find_other _ _ _ _ hts]
      exact hfresh t (List.mem_cons_of_mem s ht)
    obtain ⟨fsMid, evsPre', hinv, heq⟩ := ih rest m2
      (manifestSave m2 now path fs true true).2 hndp
      (fun t ht => hbody t (List.mem_cons_of_mem s ht)) hfresh2
    refine ⟨fsMid,
      PipeEvent.invoke s fs m
        :: PipeEvent.persist { m2 with updatedAt := now } :: evsPre', ?_, ?_⟩
    · have hsplit : invokedStages (PipeEvent.invoke s fs m
          :: PipeEvent.persist { m2 with updatedAt := now } :: evsPre')
            = s :: invokedStages evsPre' := by
        simp [invokedStages]
      rw [hsplit, hinv]
    · show execStages bodies mr path now (s :: (pre' ++ rest)) m fs = _
      rw [execStages, if_neg (by simp [hncomp]),
        if_neg (by simp [hcr])]
      simp only [executeStageWithRetry, hbs, completeOwnBody]
      rw [heq]
      have hfold : succFold outs tb now (s :: pre') m
          = succFold outs tb now pre' m2 := rfl
      simp [hfold]

lemma execStages_fail_step (bodies : PipelineStage → Option StepFun)
    (mr : Nat) (path : String) (now : Nat) (S : PipelineStage) (eS : String)
    (post : List PipelineStage) (m : Manifest) (fs : FS)
    (hSb : bodies S = some (alwaysFailBody eS))
    (hncomp : m.isStageCompleted S = false)
    (hcr : m.canRetryStage S mr = true) :
    execStages bodies mr path now (S :: post) m fs
      = (.failed ("stage " ++ stageName S ++ " failed: " ++ eS),
         (m.startStage S now).failStage S eS,
         (manifestSave ((m.startStage S now).failStage S eS) now path fs
           true true).2,
         [PipeEvent.invoke S fs m,
          PipeEvent.persist
            { (m.startStage S now).failStage S eS with updatedAt := now }]) := by
  rw [execStages, if_neg (by simp [hncomp]), if_neg (by simp [hcr])]
  simp [executeStageWithRetry, hSb, alwaysFailBody]

lemma execStages_exhausted_step (bodies : PipelineStage → Option StepFun)
    (mr : Nat) (path : String) (now : Nat) (S : PipelineStage)
    (post : List PipelineStage) (m : Manifest) (fs : FS)
    (hncomp : m.isStageCompleted S = false)
    (hcr : m.canRetryStage S mr = false) :
    execStages bodies mr path now (S :: post) m fs
      = (.failed ("stage " ++ stageName S ++ " exceeded max retries ("
            ++ toString mr ++ ")"), m, fs, []) := by
  rw [execStages, if_neg (by simp [hncomp]), if_pos (by simp [hcr])]

lemma pipelineExecute_fresh_fail (bodies : PipelineStage → Option StepFun)
    (mr : Nat) (path pid : String) (input : PipelineInput) (now : Nat)
    (fs0 : FS) (S : PipelineStage) (eS : String)
    (outs : PipelineStage → String) (tb : Nat)
    (pre post : List PipelineStage)
    (hplan : planStages getDefaultDecision = pre ++ S :: post)
    (hnd : pre.Nodup) (hSp : S ∉ pre)
    (hSb : bodies S = some (alwaysFailBody eS))
    (hpreB : ∀ t ∈ pre, bodies t = some (completeOwnBody t (outs t) tb))
    (hfs0 : fsLookup fs0 path = none) :
    (pipelineExecute bodies mr path pid input now fs0).1
        = .err ("stage " ++ stageName S ++ " failed: " ++ eS)
      ∧ invokedStages (pipelineExecute bodies mr path pid input now fs0).2.2
          = pre ++ [S]
      ∧ ∃ mm st,
          fsLookup (pipelineExecute bodies mr path pid input now fs0).2.1 path
            = some (.manifestFile mm)
          ∧ mm.llmAnalysis = none
          ∧ (∀ t ∈ pre, mm.isStageCompleted t = true)
          ∧ stagesFind mm.stages S = some st
          ∧ st.status = .failed ∧ st.retryCount = 1 := by
  obtain ⟨fsMid, evsPre, hinv, heq⟩ :=
    execStages_succ_prefix bodies mr path now outs tb pre (S :: post)
      (newManifest pid input now) fs0 hnd hpreB (fun t _ => rfl)
  have hfindS : stagesFind
      (succFold outs tb now pre (newManifest pid input now)).stages S
        = none := by
    rw [succFold_find_other _ _ _ _ _ _ hSp]; rfl
  have hncomp : (succFold outs tb now pre
      (newManifest pid input now)).isStageCompleted S = false := by
    simp [Manifest.isStageCompleted, hfindS]
  have hcr : (succFold outs tb now pre
      (newManifest pid input now)).canRetryStage S mr = true := by
    simp [Manifest.canRetryStage, hfindS]
  have hstep := execStages_fail_step bodies mr path now S eS post
    (succFold outs tb now pre (newManifest pid input now)) fsMid
    hSb hncomp hcr
  have hrun : execStages bodies mr path now (planStages getDefaultDecision)
      (newManifest pid input now) fs0
      = (.failed ("stage " ++ stageName S ++ " failed: " ++ eS),
         ((succFold outs tb now pre
             (newManifest pid input now)).startStage S now).failStage S eS,
         (manifestSave (((succFold outs tb now pre
             (newManifest pid input now)).startStage S now).failStage S eS)
           now path fsMid true true).2,
         evsPre ++ [PipeEvent.invoke S fsMid
             (succFold outs tb now pre (newManifest pid input now)),
           PipeEvent.persist
             { ((succFold outs tb now pre
                  (newManifest pid input now)).startStage S now).failStage S eS
                 with updatedAt := now }]) := by
    rw [hplan, heq, hstep]
  have hload : loadManifest fs0 path = Except.ok none := by
    simp [loadManifest, hfs0]
  have hdec : decisionOf (newManifest pid input now)
      = some getDefaultDecision := rfl
  have hpipe : pipelineExecute bodies mr path pid input now fs0
      = (.err ("stage " ++ stageName S ++ " failed: " ++ eS),
         (manifestSave (((succFold outs tb now pre
             (newManifest pid input now)).startStage S now).failStage S eS)
           now path fsMid true true).2,
         evsPre ++ [PipeEvent.invoke S fsMid
             (succFold outs tb now pre (newManifest pid input now)),
           PipeEvent.persist
             { ((succFold outs tb now pre
                  (newManifest pid input now)).startStage S now).failStage S eS
                 with updatedAt := now }]) := by
    simp only [pipelineExecute, hload, hdec, hrun]
  refine ⟨by rw [hpipe], ?_, ?_⟩
  · rw [hpipe]
    show invokedStages (evsPre ++ _) = _
    rw [invokedStages_append, hinv]
    simp [invokedStages]
  · refine ⟨{ ((succFold outs tb now pre
          (newManifest pid input now)).startStage S now).failStage S eS
        with updatedAt := now },
      { (succFold outs tb now pre
          (newManifest pid input now)).getStageState S with
          status := .failed, error := eS,
          retryCount := ((succFold outs tb now pre
            (newManifest pid input now)).getStageState S).retryCount + 1,
          startedAt := some now }, ?_, ?_, ?_, ?_, rfl, ?_⟩
    · rw [hpipe]
      show fsLookup (manifestSave _ now path fsMid true true).2 path = _
      rw [manifestSave_lookup]
    · show (((succFold outs tb now pre
          (newManifest pid input now)).startStage S now).failStage S
            eS).llmAnalysis = none
      rw [failStage_llm, startStage_llm, succFold_llm]
      rfl
    · intro t ht
      have hts : t ≠ S := fun h => hSp (h ▸ ht)
      have hframe : stagesFind
          ({ ((succFold outs tb now pre
               (newManifest pid input now)).startStage S now).failStage S eS
             with updatedAt := now } : Manifest).stages t
          = stagesFind (succFold outs tb now pre
              (newManifest pid input now)).stages t := by
        show stagesFind (((succFold outs tb now pre
            (newManifest pid input now)).startStage S now).failStage S
              eS).stages t = _
        rw [failStage_find_other _ _ _ _ hts,
          startStage_find_other _ _ _ _ hts]
      rw [isStageCompleted_congr hframe]
      exact succFold_completed outs tb now pre (newManifest pid input now)
        hnd t ht
    · show stagesFind (((succFold outs tb now pre
          (newManifest pid input now)).startStage S now).failStage S
            eS).stages S = _
      rw [failStage_find_self]
      have hgss : ((succFold outs tb now pre
            (newManifest pid input now)).startStage S now).getStageState S
          = { (succFold outs tb now pre
                (newManifest pid input now)).getStageState S with
                status := .running, startedAt := some now } := by
        rw [Manifest.getStageState, startStage_find_self]; rfl
      rw [hgss]
    · show ((succFold outs tb now pre
          (newManifest pid input now)).getStageState S).retryCount + 1 = 1
      rw [Manifest.getStageState, hfindS]
      rfl

lemma pipelineExecute_resume_retry (bodies : PipelineStage → Option StepFun)
    (mr : Nat) (path pid : String) (input : PipelineInput) (now : Nat)
    (fs : FS) (S : PipelineStage) (eS : String)
    (pre post : List PipelineStage) (mm : Manifest) (st : StageState)
    (hplan : planStages getDefaultDecision = pre ++ S :: post)
    (hSp : S ∉ pre)
    (hSb : bodies S = some (alwaysFailBody eS))
    (hload : fsLookup fs path = some (.manifestFile mm))
    (hllm : mm.llmAnalysis = none)
    (hpreC : ∀ t ∈ pre, mm.isStageCompleted t = true)
    (hfind : stagesFind mm.stages S = some st)
    (hstf : st.status = .failed)
    (hlt : st.retryCount < mr) :
    (pipelineExecute bodies mr path pid input now fs).1
        = .err ("stage " ++ stageName S ++ " failed: " ++ eS)
      ∧ invokedStages (pipelineExecute bodies mr path pid input now fs).2.2
          = [S]
      ∧ ∃ mm' st',
          fsLookup (pipelineExecute bodies mr path pid input now fs).2.1 path
            = some (.manifestFile mm')
          ∧ mm'.llmAnalysis = none
          ∧ (∀ t ∈ pre, mm'.isStageCompleted t = true)
          ∧ stagesFind mm'.stages S = some st'
          ∧ st'.status = .failed
          ∧ st'.retryCount = st.retryCount + 1 := by
  have hncomp : mm.isStageCompleted S = false := by
    simp [Manifest.isStageCompleted, hfind, hstf]
  have hcr : mm.canRetryStage S mr = true := by
    simp [Manifest.canRetryStage, hfind, hlt]
  have hskip := execStages_skip_prefix bodies mr path now pre (S :: post)
    mm fs hpreC
  have hstep := execStages_fail_step bodies mr path now S eS post mm fs
    hSb hncomp hcr
  have hrun : execStages bodies mr path now (planStages getDefaultDecision)
      mm fs
      = (.failed ("stage " ++ stageName S ++ " failed: " ++ eS),
         (mm.startStage S now).failStage S eS,
         (manifestSave ((mm.startStage S now).failStage S eS)
           now path fs true true).2,
         [PipeEvent.invoke S fs mm,
          PipeEvent.persist
            { (mm.startStage S now).failStage S eS with updatedAt := now }]) := by
    rw [hplan, hskip, hstep]
  have hloadM : loadManifest fs path = Except.ok (some mm) := by
    simp [loadManifest, hload]
  have hdec : decisionOf mm = some getDefaultDecision := by
    simp [decisionOf, hllm]
  have hpipe : pipelineExecute bodies mr path pid input now fs
      = (.err ("stage " ++ stageName S ++ " failed: " ++ eS),
         (manifestSave ((mm.startStage S now).failStage S eS)
           now path fs true true).2,
         [PipeEvent.invoke S fs mm,
          PipeEvent.persist
            { (mm.startStage S now).failStage S eS with updatedAt := now }]) := by
    simp only [pipelineExecute, hloadM, hdec, hrun]
  refine ⟨by rw [hpipe], by rw [hpipe]; simp [invokedStages], ?_⟩
  refine ⟨{ (mm.startStage S now).failStage S eS with updatedAt := now },
    { mm.getStageState S with
        status := .failed, error := eS,
        retryCount := (mm.getStageState S).retryCount + 1,
        startedAt := some now }, ?_, ?_, ?_, ?_, rfl, ?_⟩
  · rw [hpipe]
    show fsLookup (manifestSave _ now path fs true true).2 path = _
    rw [manifestSave_lookup]
  · show ((mm.startStage S now).failStage S eS).llmAnalysis = none
    rw [failStage_llm, startStage_llm, hllm]
  · intro t ht
    have hts : t ≠ S := fun h => hSp (h ▸ ht)
    have hframe : stagesFind
        ({ (mm.startStage S now).failStage S eS
           with updatedAt := now } : Manifest).stages t
        = stagesFind mm.stages t := by
      show stagesFind ((mm.startStage S now).failStage S eS).stages t = _
      rw [failStage_find_other _ _ _ _ hts, startStage_find_other _ _ _ _ hts]
    rw [isStageCompleted_congr hframe]
    exact hpreC t ht
  · show stagesFind ((mm.startStage S now).failStage S eS).stages S = _
    rw [failStage_find_self]
    have hgss : (mm.startStage S now).getStageState S
        = { mm.getStageState S with
              status := .running, startedAt := some now } := by
      rw [Manifest.getStageState, startStage_find_self]; rfl
    rw [hgss]
  · show (mm.getStageState S).retryCount + 1 = st.retryCount + 1
    rw [Manifest.getStageState, hfind]
    rfl

lemma pipelineExecute_resume_exhausted
    (bodies : PipelineStage → Option StepFun)
    (mr : Nat) (path pid : String) (input : PipelineInput) (now : Nat)
    (fs : FS) (S : PipelineStage)
    (pre post : List PipelineStage) (mm : Manifest) (st : StageState)
    (hplan : planStages getDefaultDecision = pre ++ S :: post)
    (hload : fsLookup fs path = some (.manifestFile mm))
    (hllm : mm.llmAnalysis = none)
    (hpreC : ∀ t ∈ pre, mm.isStageCompleted t = true)
    (hfind : stagesFind mm.stages S = some st)
    (hstf : st.status = .failed)
    (hge : ¬ st.retryCount < mr) :
    pipelineExecute bodies mr path pid input now fs
      = (.err ("stage " ++ stageName S ++ " exceeded max retries ("
            ++ toString mr ++ ")"), fs, []) := by
  have hncomp : mm.isStageCompleted S = false := by
    simp [Manifest.isStageCompleted, hfind, hstf]
  have hcr : mm.canRetryStage S mr = false := by
    simp [Manifest.canRetryStage, hfind, hge]
  have hskip := execStages_skip_prefix bodies mr path now pre (S :: post)
    mm fs hpreC
  have hstep := execStages_exhausted_step bodies mr path now S post mm fs
    hncomp hcr
  have hrun : execStages bodies mr path now (planStages getDefaultDecision)
      mm fs
      = (.failed ("stage " ++ stageName S ++ " exceeded max retries ("
            ++ toString mr ++ ")"), mm, fs, []) := by
    rw [hplan, hskip, hstep]
  have hloadM : loadManifest fs path = Except.ok (some mm) := by
    simp [loadManifest, hload]
  have hdec : decisionOf mm = some getDefaultDecision := by
    simp [decisionOf, hllm]
  simp only [pipelineExecute, hloadM, hdec, hrun]

lemma pipelineRuns_invariant (bodies : PipelineStage → Option StepFun)
    (mr : Nat) (path pid : String) (input : PipelineInput) (now : Nat)
    (fs0 : FS) (S : PipelineStage) (eS : String)
    (outs : PipelineStage → String) (tb : Nat)
    (pre post : List PipelineStage)
    (hplan : planStages getDefaultDecision = pre ++ S :: post)
    (hnd : pre.Nodup) (hSp : S ∉ pre)
    (hSb : bodies S = some (alwaysFailBody eS))
    (hpreB : ∀ t ∈ pre, bodies t = some (completeOwnBody t (outs t) tb))
    (hfs0 : fsLookup fs0 path = none) :
    ∀ i, 1 ≤ i → i ≤ mr →
      ∃ mm st,
        fsLookup (pipelineFSAfter bodies mr path pid input now fs0 i) path
          = some (.manifestFile mm)
        ∧ mm.llmAnalysis = none
        ∧ (∀ t ∈ pre, mm.isStageCompleted t = true)
        ∧ stagesFind mm.stages S = some st
        ∧ st.status = .failed ∧ st.retryCount = i := by
  intro i
  induction i with
  | zero => intro h; cases h
  | succ i ih =>
    intro _ hle
    cases Nat.eq_zero_or_pos i with
    | inl h0 =>
      subst h0
      obtain ⟨_, _, hdisk⟩ := pipelineExecute_fresh_fail bodies mr path pid
        input now fs0 S eS outs tb pre post hplan hnd hSp hSb hpreB hfs0
      obtain ⟨mm, st, h1, h2, h3, h4, h5, h6⟩ := hdisk
      exact ⟨mm, st, h1, h2, h3, h4, h5, h6⟩
    | inr hpos =>
      have hlt : i < mr := Nat.lt_of_lt_of_le (Nat.lt_succ_self i) hle
      obtain ⟨mm, st, h1, h2, h3, h4, h5, h6⟩ :=
        ih hpos (Nat.le_of_lt hlt)
      obtain ⟨_, _, hdisk⟩ := pipelineExecute_resume_retry bodies mr path pid
        input now (pipelineFSAfter bodies mr path pid input now fs0 i)
        S eS pre post mm st hplan hSp hSb h1 h2 h3 h4 h5 (h6 ▸ hlt)
      obtain ⟨mm', st', g1, g2, g3, g4, g5, g6⟩ := hdisk
      exact ⟨mm', st', g1, g2, g3, g4, g5, by rw [g6, h6]⟩

/-- C2. Retry bound for a stage whose body always fails (lightweight mode,
fresh manifest path, other planned stage bodies succeeding and recording their
completion): the first run executes the preceding stages and then `S` once;
each of the following `max_retries - 1` runs re-executes only `S`; after the
`i`-th failed attempt the persisted manifest records `retry_count = i` with
status failed; the run after the `max_retries`-th attempt fails with the
bound-exceeded error without invoking any body; and the total number of
invocations of `S`'s body across those `max_retries + 1` runs is exactly
`max_retries`. -/
theorem pipeline_retry_bound (bodies : PipelineStage → Option StepFun)
    (mr : Nat) (path pid : String) (input : PipelineInput) (now : Nat)
    (fs0 : FS) (S : PipelineStage) (eS : String)
    (outs : PipelineStage → String) (tb : Nat)
    (pre post : List PipelineStage)
    (hplan : planStages getDefaultDecision = pre ++ S :: post)
    (hSb : bodies S = some (alwaysFailBody eS))
    (hpreB : ∀ t ∈ pre, bodies t = some (completeOwnBody t (outs t) tb))
    (hfs0 : fsLookup fs0 path = none)
    (hmr : 1 ≤ mr) :
    ((pipelineRun bodies mr path pid input now fs0 0).1
        = .err ("stage " ++ stageName S ++ " failed: " ++ eS)
      ∧ invokedStages (pipelineRun bodies mr path pid input now fs0 0).2.2
          = pre ++ [S])
    ∧ (∀ i, 1 ≤ i → i < mr →
        (pipelineRun bodies mr path pid input now fs0 i).1
            = .err ("stage " ++ stageName S ++ " failed: " ++ eS)
          ∧ invokedStages
              (pipelineRun bodies mr path pid input now fs0 i).2.2 = [S])
    ∧ (∀ i, 1 ≤ i → i ≤ mr →
        ∃ mm st,
          fsLookup (pipelineFSAfter bodies mr path pid input now fs0 i) path
            = some (.manifestFile mm)
          ∧ stagesFind mm.stages S = some st
          ∧ st.status = .failed ∧ st.retryCount = i)
    ∧ ((pipelineRun bodies mr path pid input now fs0 mr).1
        = .err ("stage " ++ stageName S ++ " exceeded max retries ("
            ++ toString mr ++ ")")
      ∧ invokedStages
          (pipelineRun bodies mr path pid input now fs0 mr).2.2 = [])
    ∧ (Finset.range (mr + 1)).sum
        (fun i => (invokedStages
          (pipelineRun bodies mr path pid input now fs0 i).2.2).count S)
      = mr := by
  have hndfull : (pre ++ S :: post).Nodup := by
    rw [← hplan]; exact planStages_nodup getDefaultDecision
  have hnd : pre.Nodup := (List.nodup_append.mp hndfull).1
  have hSp : S ∉ pre := by
    intro hmem
    exact (List.nodup_append.mp hndfull).2.2 hmem (List.mem_cons_self S post)
  have hrun0 := pipelineExecute_fresh_fail bodies mr path pid input now fs0
    S eS outs tb pre post hplan hnd hSp hSb hpreB hfs0
  have hinvar := pipelineRuns_invariant bodies mr path pid input now fs0
    S eS outs tb pre post hplan hnd hSp hSb hpreB hfs0
  have hmid : ∀ i, 1 ≤ i → i < mr →
      (pipelineRun bodies mr path pid input now fs0 i).1
          = .err ("stage " ++ stageName S ++ " failed: " ++ eS)
        ∧ invokedStages
            (pipelineRun bodies mr path pid input now fs0 i).2.2 = [S] := by
    intro i h1 h2
    obtain ⟨mm, st, g1, g2, g3, g4, g5, g6⟩ := hinvar i h1 (Nat.le_of_lt h2)
    obtain ⟨r1, r2, _⟩ := pipelineExecute_resume_retry bodies mr path pid
      input now (pipelineFSAfter bodies mr path pid input now fs0 i)
      S eS pre post mm st hplan hSp hSb g1 g2 g3 g4 g5 (g6 ▸ h2)
    exact ⟨r1, r2⟩
  have hlast : pipelineRun bodies mr path pid input now fs0 mr
      = (.err ("stage " ++ stageName S ++ " exceeded max retries ("
          ++ toString mr ++ ")"),
         pipelineFSAfter bodies mr path pid input now fs0 mr, []) := by
    obtain ⟨mm, st, g1, g2, g3, g4, g5, g6⟩ := hinvar mr hmr le_rfl
    exact pipelineExecute_resume_exhausted bodies mr path pid input now
      (pipelineFSAfter bodies mr path pid input now fs0 mr)
      S pre post mm st hplan g1 g2 g3 g4 g5 (by rw [g6]; exact lt_irrefl mr)
  refine ⟨⟨hrun0.1, hrun0.2.1⟩, hmid, ?_, ⟨by rw [hlast], by
    rw [hlast]; simp [invokedStages]⟩, ?_⟩
  · intro i h1 h2
    obtain ⟨mm, st, g1, _, _, g4, g5, g6⟩ := hinvar i h1 h2
    exact ⟨mm, st, g1, g4, g5, g6⟩
  · rw [Finset.sum_range_succ]
    have hcmr : (invokedStages
        (pipelineRun bodies mr path pid input now fs0 mr).2.2).count S = 0 := by
      rw [hlast]
      simp [invokedStages]
    rw [hcmr, Nat.add_zero]
    have hceach : ∀ i ∈ Finset.range mr,
        (invokedStages
          (pipelineRun bodies mr path pid input now fs0 i).2.2).count S
          = 1 := by
      intro i hi
      rw [Finset.mem_range] at hi
      cases Nat.eq_zero_or_pos i with
      | inl h0 =>
        subst h0
        have hr0 : pipelineRun bodies mr path pid input now fs0 0
            = pipelineExecute bodies mr path pid input now fs0 := rfl
        rw [hr0, hrun0.2.1, List.count_append]
        have : pre.count S = 0 := List.count_eq_zero.mpr hSp
        simp [this]
      | inr hpos =>
        rw [(hmid i hpos hi).2]
        simp
    rw [Finset.sum_congr rfl hceach]
    simp

/-- Concrete bodies for the retry-bound witness: `segment_person` always
fails, every other stage body succeeds and records completion. -/
def c2Bodies : PipelineStage → Option StepFun :=
  fun t =>
    if t = PipelineStage.segmentPerson then some (alwaysFailBody "boom")
    else some (completeOwnBody t "out" 3)

/-- C2 witness: retry bound at `max_retries = 2` for an always-failing
`segment_person` body — two attempts across the first two runs, then a
bound-exceeded error on the third run. -/
theorem pipeline_retry_bound_witness :
    planStages getDefaultDecision
        = [] ++ PipelineStage.segmentPerson
            :: [PipelineStage.landmarks, PipelineStage.renderMotion,
                PipelineStage.searchMusic, PipelineStage.compose]
      ∧ c2Bodies PipelineStage.segmentPerson = some (alwaysFailBody "boom")
      ∧ fsLookup [] "m.json" = none
      ∧ (1 : Nat) ≤ 2
      ∧ (Finset.range (2 + 1)).sum
          (fun i => (invokedStages
            (pipelineRun c2Bodies 2 "m.json" "p" {} 1 [] i).2.2).count
              PipelineStage.segmentPerson) = 2
      ∧ (pipelineRun c2Bodies 2 "m.json" "p" {} 1 [] 2).1
          = .err ("stage " ++ stageName PipelineStage.segmentPerson
              ++ " exceeded max retries (" ++ toString 2 ++ ")") := by
  have h := pipeline_retry_bound c2Bodies 2 "m.json" "p" {} 1 []
    PipelineStage.segmentPerson "boom" (fun _ => "out") 3 []
    [PipelineStage.landmarks, PipelineStage.renderMotion,
     PipelineStage.searchMusic, PipelineStage.compose]
    rfl rfl (fun t ht => absurd ht (List.not_mem_nil t)) rfl (by decide)
  exact ⟨rfl, rfl, rfl, by decide, h.2.2.2.2, h.2.2.2.1.1⟩

/-- Concrete bodies for the idempotence witness: every stage body succeeds,
touching only its own stage. -/
def c3Bodies : PipelineStage → Option StepFun :=
  fun t => some (completeOwnBody t "out" 3)

/-- A manifest in which `segment_person` is already completed. -/
def c3Manifest : Manifest :=
  { stages := [(PipelineStage.segmentPerson, { status := .completed })] }

/-- C3 witness: re-running against a manifest with `segment_person` completed
never invokes its body, and only non-completed planned stages run in order. -/
theorem execute_idempotent_witness :
    bodiesPreserveOthers c3Bodies
      ∧ fsLookup [("m.json", FileData.manifestFile c3Manifest)] "m.json"
          = some (.manifestFile c3Manifest)
      ∧ decisionOf c3Manifest = some getDefaultDecision
      ∧ c3Manifest.isStageCompleted PipelineStage.segmentPerson = true
      ∧ (PipelineStage.segmentPerson
            ∉ invokedStages (pipelineExecute c3Bodies 3 "m.json" "p" {} 1
                [("m.json", FileData.manifestFile c3Manifest)]).2.2
          ∧ List.Sublist
              (invokedStages (pipelineExecute c3Bodies 3 "m.json" "p" {} 1
                [("m.json", FileData.manifestFile c3Manifest)]).2.2)
              ((planStages getDefaultDecision).filter
                (fun t => !(c3Manifest.isStageCompleted t)))) := by
  have hframe : bodiesPreserveOthers c3Bodies := by
    intro t b m u hb hu
    have hbe : completeOwnBody t "out" 3 = b := by
      simpa [c3Bodies] using hb
    rw [← hbe]
    show stagesFind ((completeOwnBody t "out" 3) m).1.stages u
      = stagesFind m.stages u
    simp only [completeOwnBody]
    exact completeStage_find_other m t u (some "out") 3 hu
  exact ⟨hframe, rfl, rfl, rfl,
    execute_idempotent c3Bodies 3 "m.json" "p" {} 1
      [("m.json", FileData.manifestFile c3Manifest)] c3Manifest
      getDefaultDecision PipelineStage.segmentPerson hframe rfl rfl rfl⟩

/-! ### C7: which stage transitions reach the disk -/

/-- No stage entry of the manifest is in `running` status. -/
def noRunningStage (m : Manifest) : Prop :=
  ∀ e ∈ m.stages, (e : PipelineStage × StageState).2.status
    ≠ StageStatus.running

lemma stagesSet_mem (l : List (PipelineStage × StageState))
    (s : PipelineStage) (st : StageState) :
    ∀ e ∈ stagesSet l s st, e = (s, st) ∨ e ∈ l := by
  induction l with
  | nil => intro e he; simp [stagesSet] at he; simp [he]
  | cons kv rest ih =>
    obtain ⟨k, v⟩ := kv
    intro e he
    by_cases hk : k = s
    · subst hk
      rw [stagesSet, if_pos rfl] at he
      rcases List.mem_cons.mp he with h | h
      · exact Or.inl h
      · exact Or.inr (List.mem_cons_of_mem _ h)
    · rw [stagesSet, if_neg hk] at he
      rcases List.mem_cons.mp he with h | h
      · exact Or.inr (h ▸ List.mem_cons_self _ _)
      · rcases ih e h with h' | h'
        · exact Or.inl h'
        · exact Or.inr (List.mem_cons_of_mem _ h')

lemma stagesSet_set_mem (l : List (PipelineStage × StageState))
    (s : PipelineStage) (st1 st2 : StageState) :
    ∀ e ∈ stagesSet (stagesSet l s st1) s st2, e = (s, st2) ∨ e ∈ l := by
  induction l with
  | nil => intro e he; simp [stagesSet] at he; simp [he]
  | cons kv rest ih =>
    obtain ⟨k, v⟩ := kv
    intro e he
    by_cases hk : k = s
    · subst hk
      rw [stagesSet, if_pos rfl, stagesSet, if_pos rfl] at he
      rcases List.mem_cons.mp he with h | h
      · exact Or.inl h
      · exact Or.inr (List.mem_cons_of_mem _ h)
    · rw [stagesSet, if_neg hk, stagesSet, if_neg hk] at he
      rcases List.mem_cons.mp he with h | h
      · exact Or.inr (h ▸ List.mem_cons_self _ _)
      · rcases ih e h with h' | h'
        · exact Or.inl h'
        · exact Or.inr (List.mem_cons_of_mem _ h')

lemma noRunning_fail_of_start (m : Manifest) (s : PipelineStage)
    (now : Nat) (e : String) (hm : noRunningStage m) :
    noRunningStage ((m.startStage s now).failStage s e) := by
  intro en hen
  rcases stagesSet_set_mem m.stages s _ _ en hen with h | h
  · rw [h]; intro hc; cases hc
  · exact hm en h

lemma noRunning_complete_of_start (m : Manifest) (s : PipelineStage)
    (now tb : Nat) (o : String) (hm : noRunningStage m) :
    noRunningStage ((m.startStage s now).completeStage s (some o) tb) := by
  intro en hen
  rcases stagesSet_set_mem m.stages s _ _ en hen with h | h
  · rw [h]; intro hc; cases hc
  · exact hm en h

lemma noRunning_fail (m : Manifest) (s : PipelineStage) (e : String)
    (hm : noRunningStage m) : noRunningStage (m.failStage s e) := by
  intro en hen
  rcases stagesSet_mem m.stages s _ en hen with h | h
  · rw [h]; intro hc; cases hc
  · exact hm en h

/-- The body shapes the sequencer contract assumes: a body either fails
leaving the manifest as given, or records its own stage's completion
(`manifest.CompleteStage`). -/
def contractBodies (bodies : PipelineStage → Option StepFun) : Prop :=
  ∀ t, bodies t = none
    ∨ (∃ e, bodies t = some (alwaysFailBody e))
    ∨ (∃ o tb, bodies t = some (completeOwnBody t o tb))

lemma execStages_unknown_step (bodies : PipelineStage → Option StepFun)
    (mr : Nat) (path : String) (now : Nat) (s : PipelineStage)
    (rest : List PipelineStage) (m : Manifest) (fs : FS)
    (hb : bodies s = none)
    (hncomp : m.isStageCompleted s = false)
    (hcr : m.canRetryStage s mr = true) :
    execStages bodies mr path now (s :: rest) m fs
      = (.failed ("stage " ++ stageName s ++ " failed: "
            ++ ("unknown stage: " ++ stageName s)),
         m.failStage s ("unknown stage: " ++ stageName s),
         (manifestSave (m.failStage s ("unknown stage: " ++ stageName s))
           now path fs true true).2,
         [PipeEvent.persist
           { m.failStage s ("unknown stage: " ++ stageName s)
               with updatedAt := now }]) := by
  rw [execStages, if_neg (by simp [hncomp]), if_neg (by simp [hcr])]
  simp [executeStageWithRetry, hb]

lemma execStages_complete_step (bodies : PipelineStage → Option StepFun)
    (mr : Nat) (path : String) (now : Nat) (s : PipelineStage)
    (rest : List PipelineStage) (m : Manifest) (fs : FS) (o : String)
    (tb : Nat)
    (hb : bodies s = some (completeOwnBody s o tb))
    (hncomp : m.isStageCompleted s = false)
    (hcr : m.canRetryStage s mr = true) :
    execStages bodies mr path now (s :: rest) m fs
      = ((execStages bodies mr path now rest
            ((m.startStage s now).completeStage s (some o) tb)
            (manifestSave ((m.startStage s now).completeStage s (some o) tb)
              now path fs true true).2).1,
         (execStages bodies mr path now rest
            ((m.startStage s now).completeStage s (some o) tb)
            (manifestSave ((m.startStage s now).completeStage s (some o) tb)
              now path fs true true).2).2.1,
         (execStages bodies mr path now rest
            ((m.startStage s now).completeStage s (some o) tb)
            (manifestSave ((m.startStage s now).completeStage s (some o) tb)
              now path fs true true).2).2.2.1,
         PipeEvent.invoke s fs m
           :: PipeEvent.persist
                { (m.startStage s now).completeStage s (some o) tb
                    with updatedAt := now }
           :: (execStages bodies mr path now rest
                ((m.startStage s now).completeStage s (some o) tb)
                (manifestSave ((m.startStage s now).completeStage s (some o) tb)
                  now path fs true true).2).2.2.2) := by
  rw [execStages, if_neg (by simp [hncomp]), if_neg (by simp [hcr])]
  simp [executeStageWithRetry, hb, completeOwnBody]

lemma execStages_no_running (bodies : PipelineStage → Option StepFun)
    (mr : Nat) (path : String) (now : Nat)
    (hbodies : contractBodies bodies) :
    ∀ (stages : List PipelineStage) (m : Manifest) (fs : FS),
      noRunningStage m →
      (∀ mm, fsLookup fs path = some (.manifestFile mm) →
        noRunningStage mm
          ∧ ∀ t, (mm.getStageState t).retryCount
              = (m.getStageState t).retryCount) →
      (∀ mp ∈ persistedManifests
          (execStages bodies mr path now stages m fs).2.2.2, noRunningStage mp)
      ∧ (∀ s d mem, PipeEvent.invoke s d mem
            ∈ (execStages bodies mr path now stages m fs).2.2.2 →
          ∀ mm, fsLookup d path = some (.manifestFile mm) →
            noRunningStage mm
              ∧ (mm.getStageState s).retryCount
                  = (mem.getStageState s).retryCount)
      ∧ noRunningStage (execStages bodies mr path now stages m fs).2.1 := by
  intro stages
  induction stages with
  | nil =>
    intro m fs hm hdisk
    refine ⟨?_, ?_, hm⟩
    · intro mp hmp; simp [execStages, persistedManifests] at hmp
    · intro s d mem hmem; simp [execStages] at hmem
  | cons s rest ih =>
    intro m fs hm hdisk
    by_cases hcomp : m.isStageCompleted s
    · have := ih m fs hm hdisk
      simpa [execStages, hcomp] using this
    · have hncomp : m.isStageCompleted s = false := by
        simpa using hcomp
      by_cases hcr : m.canRetryStage s mr
      · rcases hbodies s with hb | ⟨e, hb⟩ | ⟨o, tb, hb⟩
        · -- unknown stage: FailStage without StartStage, save, halt
          rw [execStages_unknown_step bodies mr path now s rest m fs hb
            hncomp hcr]
          have hm3 : noRunningStage (m.failStage s ("unknown stage: "
              ++ stageName s)) := noRunning_fail m s _ hm
          refine ⟨?_, ?_, hm3⟩
          · intro mp hmp
            simp [persistedManifests] at hmp
            rw [hmp]
            exact hm3
          · intro s' d mem hmem
            simp [persistedManifests] at hmem
        · -- always-failing body: StartStage, body error, FailStage, save, halt
          rw [execStages_fail_step bodies mr path now s e rest m fs hb
            hncomp hcr]
          have hm3 : noRunningStage ((m.startStage s now).failStage s e) :=
            noRunning_fail_of_start m s now e hm
          refine ⟨?_, ?_, hm3⟩
          · intro mp hmp
            simp [persistedManifests] at hmp
            rw [hmp]
            exact hm3
          · intro s' d mem hmem
            simp only [List.mem_cons, List.mem_singleton] at hmem
            rcases hmem with h | h | h
            · obtain ⟨hs', hd, hmem'⟩ := PipeEvent.invoke.inj h.symm
              subst hs'; subst hd; subst hmem'
              intro mm hmm
              exact ⟨(hdisk mm hmm).1, (hdisk mm hmm).2 s⟩
            · cases h
            · cases h
        · -- body records its own completion; the loop continues
          rw [execStages_complete_step bodies mr path now s rest m fs o tb hb
            hncomp hcr]
          have hm2 : noRunningStage
              ((m.startStage s now).completeStage s (some o) tb) :=
            noRunning_complete_of_start m s now tb o hm
          have hdisk2 : ∀ mm,
              fsLookup (manifestSave
                  ((m.startStage s now).completeStage s (some o) tb)
                  now path fs true true).2 path
                = some (.manifestFile mm) →
              noRunningStage mm
                ∧ ∀ t, (mm.getStageState t).retryCount
                    = (((m.startStage s now).completeStage s
                        (some o) tb).getStageState t).retryCount := by
            intro mm hmm
            rw [manifestSave_lookup] at hmm
            have hmmeq : mm = { (m.startStage s now).completeStage s (some o)
                tb with updatedAt := now } := by
              injection hmm with h1
              injection h1.symm with h2
            subst hmmeq
            exact ⟨hm2, fun t => rfl⟩
          obtain ⟨ihp, ihi, ihm⟩ := ih
            ((m.startStage s now).completeStage s (some o) tb)
            (manifestSave ((m.startStage s now).completeStage s (some o) tb)
              now path fs true true).2 hm2 hdisk2
          refine ⟨?_, ?_, ihm⟩
          · intro mp hmp
            simp only [persistedManifests, List.filterMap_cons] at hmp ihp ⊢
            rcases List.mem_cons.mp hmp with h | h
            · rw [h]
              exact hm2
            · exact ihp mp h
          · intro s' d mem hmem
            simp only [List.mem_cons] at hmem
            rcases hmem with h | h | h
            · obtain ⟨hs', hd, hmem'⟩ := PipeEvent.invoke.inj h.symm
              subst hs'; subst hd; subst hmem'
              intro mm hmm
              exact ⟨(hdisk mm hmm).1, (hdisk mm hmm).2 s⟩
            · cases h
            · exact ihi s' d mem h
      · have hcr' : m.canRetryStage s mr = false := by simpa using hcr
        rw [execStages_exhausted_step bodies mr path now s rest m fs
          hncomp hcr']
        refine ⟨?_, ?_, hm⟩
        · intro mp hmp; simp [persistedManifests] at hmp
        · intro s' d mem hmem; simp [persistedManifests] at hmem

lemma persistedManifests_append (l1 l2 : List PipeEvent) :
    persistedManifests (l1 ++ l2)
      = persistedManifests l1 ++ persistedManifests l2 := by
  simp [persistedManifests]

/-- C7 (amended). Only the completed/failed/skipped side of a stage
transition ever reaches the disk: every manifest `Execute` persists has no
stage in `running` status, and at the moment a stage body is invoked (i.e.
after `StartStage` set `running` in memory) the disk still holds the previous
manifest — in it the stage is not running and its `retry_count` equals the
in-memory pre-attempt value, so an attempt interrupted before `FailStage` is
not counted. -/
theorem pipeline_transition_persistence
    (bodies : PipelineStage → Option StepFun) (mr : Nat) (path pid : String)
    (input : PipelineInput) (now : Nat) (fs : FS)
    (hbodies : contractBodies bodies)
    (hfs : ∀ mm, fsLookup fs path = some (.manifestFile mm) →
      noRunningStage mm) :
    (∀ mp ∈ persistedManifests
        (pipelineExecute bodies mr path pid input now fs).2.2,
      noRunningStage mp)
    ∧ (∀ s d mem, PipeEvent.invoke s d mem
          ∈ (pipelineExecute bodies mr path pid input now fs).2.2 →
        ∀ mm, fsLookup d path = some (.manifestFile mm) →
          noRunningStage mm
            ∧ (mm.getStageState s).retryCount
                = (mem.getStageState s).retryCount) := by
  rcases hl : fsLookup fs path with _ | fd
  · -- fresh start
    have hload : loadManifest fs path = Except.ok none := by
      simp [loadManifest, hl]
    have hdec : decisionOf (newManifest pid input now)
        = some getDefaultDecision := rfl
    have hm0 : noRunningStage (newManifest pid input now) := by
      intro e he; cases he
    have hdisk0 : ∀ mm, fsLookup fs path = some (.manifestFile mm) →
        noRunningStage mm ∧ ∀ t, (mm.getStageState t).retryCount
          = ((newManifest pid input now).getStageState t).retryCount := by
      intro mm hmm; rw [hl] at hmm; cases hmm
    obtain ⟨hp, hi, hfinal⟩ := execStages_no_running bodies mr path now
      hbodies (planStages getDefaultDecision) (newManifest pid input now) fs
      hm0 hdisk0
    rcases hr : (execStages bodies mr path now
        (planStages getDefaultDecision) (newManifest pid input now) fs).1
      with _ | msg
    · constructor
      · intro mp hmp
        simp only [pipelineExecute, hload, hdec, hr] at hmp
        rw [persistedManifests_append] at hmp
        rcases List.mem_append.mp hmp with h | h
        · exact hp mp h
        · simp [persistedManifests] at h
          rw [h]
          exact hfinal
      · intro s d mem hmem
        simp only [pipelineExecute, hload, hdec, hr] at hmem
        rcases List.mem_append.mp hmem with h | h
        · exact hi s d mem h
        · simp at h
    · constructor
      · intro mp hmp
        simp only [pipelineExecute, hload, hdec, hr] at hmp
        exact hp mp hmp
      · intro s d mem hmem
        simp only [pipelineExecute, hload, hdec, hr] at hmem
        exact hi s d mem hmem
  · rcases fd with mm0 | other
    · -- resume from an existing manifest
      have hload : loadManifest fs path = Except.ok (some mm0) := by
        simp [loadManifest, hl]
      have hm0 : noRunningStage mm0 := hfs mm0 hl
      have hdisk0 : ∀ mm, fsLookup fs path = some (.manifestFile mm) →
          noRunningStage mm ∧ ∀ t, (mm.getStageState t).retryCount
            = (mm0.getStageState t).retryCount := by
        intro mm hmm
        rw [hl] at hmm
        have : mm = mm0 := by
          injection hmm with h1
          injection h1.symm with h2
        subst this
        exact ⟨hm0, fun t => rfl⟩
      rcases hdec : decisionOf mm0 with _ | d
      · constructor
        · intro mp hmp
          simp only [pipelineExecute, hload, hdec] at hmp
          simp [persistedManifests] at hmp
        · intro s d mem hmem
          simp only [pipelineExecute, hload, hdec] at hmem
          simp at hmem
      · obtain ⟨hp, hi, hfinal⟩ := execStages_no_running bodies mr path now
          hbodies (planStages d) mm0 fs hm0 hdisk0
        rcases hr : (execStages bodies mr path now (planStages d) mm0 fs).1
          with _ | msg
        · constructor
          · intro mp hmp
            simp only [pipelineExecute, hload, hdec, hr] at hmp
            rw [persistedManifests_append] at hmp
            rcases List.mem_append.mp hmp with h | h
            · exact hp mp h
            · simp [persistedManifests] at h
              rw [h]
              exact hfinal
          · intro s d mem hmem
            simp only [pipelineExecute, hload, hdec, hr] at hmem
            rcases List.mem_append.mp hmem with h | h
            · exact hi s d mem h
            · simp at h
        · constructor
          · intro mp hmp
            simp only [pipelineExecute, hload, hdec, hr] at hmp
            exact hp mp hmp
          · intro s d mem hmem
            simp only [pipelineExecute, hload, hdec, hr] at hmem
            exact hi s d mem hmem
    · -- unparseable manifest: Execute fails before any stage
      have hload : loadManifest fs path
          = Except.error "failed to parse manifest" := by
        simp [loadManifest, hl]
      constructor
      · intro mp hmp
        simp only [pipelineExecute, hload] at hmp
        simp [persistedManifests] at hmp
      · intro s d mem hmem
        simp only [pipelineExecute, hload] at hmem
        simp at hmem

/-- The disk states recorded at each stage-body invocation. -/
def invokeDisks (evs : List PipeEvent) : List FS :=
  evs.filterMap (fun e => match e with
    | .invoke _ d _ => some d
    | .persist _ => none)

/-- C7. The claim that the `pending → running` transition is persisted (and
an interrupted attempt counted in `retry_count`) is false of the code: in a
fresh run whose `segment_person` body fails, the body is invoked while the
disk is still empty — a crash between `StartStage` and completion reloads no
manifest at all (no running stage observable, `retry_count` untouched) — and
the only persisted manifest already has the stage `failed`, never `running`. -/
theorem stage_transition_persistence_counterexample :
    invokedStages (pipelineExecute c2Bodies 3 "m.json" "p" {} 1 []).2.2
        = [PipelineStage.segmentPerson]
      ∧ invokeDisks (pipelineExecute c2Bodies 3 "m.json" "p" {} 1 []).2.2
          = [[]]
      ∧ fsLookup ([] : FS) "m.json" = none
      ∧ persistedManifests
          (pipelineExecute c2Bodies 3 "m.json" "p" {} 1 []).2.2 ≠ []
      ∧ ∀ mp ∈ persistedManifests
            (pipelineExecute c2Bodies 3 "m.json" "p" {} 1 []).2.2,
          ∀ en ∈ mp.stages,
            (en : PipelineStage × StageState).2.status
              ≠ StageStatus.running := by
  refine ⟨rfl, rfl, rfl, ?_, ?_⟩ <;> decide

/-- C7 witness (for the amended theorem): the persistence discipline applied
to the concrete bodies and a fresh file system. -/
theorem pipeline_transition_persistence_witness :
    contractBodies c2Bodies
      ∧ (∀ mm, fsLookup ([] : FS) "m.json" = some (.manifestFile mm) →
          noRunningStage mm)
      ∧ ((∀ mp ∈ persistedManifests
            (pipelineExecute c2Bodies 2 "m.json" "p" {} 1 []).2.2,
          noRunningStage mp)
        ∧ (∀ s d mem, PipeEvent.invoke s d mem
              ∈ (pipelineExecute c2Bodies 2 "m.json" "p" {} 1 []).2.2 →
            ∀ mm, fsLookup d "m.json" = some (.manifestFile mm) →
              noRunningStage mm
                ∧ (mm.getStageState s).retryCount
                    = (mem.getStageState s).retryCount)) := by
  have hb : contractBodies c2Bodies := by
    intro t
    cases t with
    | segmentPerson => exact Or.inr (Or.inl ⟨"boom", rfl⟩)
    | init => exact Or.inr (Or.inr ⟨"out", 3, rfl⟩)
    | landmarks => exact Or.inr (Or.inr ⟨"out", 3, rfl⟩)
    | renderMotion => exact Or.inr (Or.inr ⟨"out", 3, rfl⟩)
    | searchMusic => exact Or.inr (Or.inr ⟨"out", 3, rfl⟩)
    | compose => exact Or.inr (Or.inr ⟨"out", 3, rfl⟩)
    | complete => exact Or.inr (Or.inr ⟨"out", 3, rfl⟩)
  have hf : ∀ mm, fsLookup ([] : FS) "m.json" = some (.manifestFile mm) →
      noRunningStage mm := by
    intro mm hmm; cases hmm
  exact ⟨hb, hf,
    pipeline_transition_persistence c2Bodies 2 "m.json" "p" {} 1 [] hb hf⟩

/-! ## Stdio transport: request ids and response routing
(`StdioTransport` in `internal/client`)

`SendRequest` (under the mutex) allocates `id := nextID; nextID++`, registers
a response channel in `pendingReqs[id]`, and on every exit path (response,
timeout, cancellation, transport close) its deferred cleanup deletes the
entry.  `readLoop` routes each parsed line to `pendingReqs[resp.ID]` when
present and drops it otherwise.  The mutex serializes these sections, so a
session is a sequence of atomic operations on the `(nextID, pendingReqs)`
state. -/

/-- The id-allocation and correlation state of one `StdioTransport`. -/
structure TransportState where
  nextID : Nat
  pending : List Nat
deriving DecidableEq, Repr

/-- `NewStdioTransport`: `nextID = 1`, empty pending map. -/
def initTransport : TransportState := { nextID := 1, pending := [] }

/-- One mutex-protected section touching the correlation state. -/
inductive TOp
  | alloc
  | unregister (id : Nat)
  | respond (id : Nat)
deriving DecidableEq, Repr

/-- Observable effects: an id handed to a `SendRequest` call, a response
delivered into the slot registered under its id, or a response dropped
because no slot holds its id. -/
inductive TEvent
  | allocated (id : Nat)
  | delivered (id : Nat)
  | ignored (id : Nat)
deriving DecidableEq, Repr

/-- Embedding of the three critical sections: id allocation + registration in
`SendRequest`, the deferred `delete(t.pendingReqs, id)`, and the routing step
of `readLoop`. -/
def tStep (s : TransportState) : TOp → TransportState × Option TEvent
  | .alloc =>
    ({ nextID := s.nextID + 1, pending := s.nextID :: s.pending },
      some (.allocated s.nextID))
  | .unregister id => ({ s with pending := s.pending.erase id }, none)
  | .respond id =>
    (s, some (if id ∈ s.pending then .delivered id else .ignored id))

/-- A session: the operations run in mutex order. -/
def tRun (s : TransportState) : List TOp → TransportState × List TEvent
  | [] => (s, [])
  | op :: ops =>
    let r := tStep s op
    let r2 := tRun r.1 ops
    (r2.1, r.2.toList ++ r2.2)

/-- The ids `SendRequest` calls received, in order. -/
def allocatedIds (evs : List TEvent) : List Nat :=
  evs.filterMap (fun e => match e with
    | .allocated id => some id
    | _ => none)

/-- The ids of responses that were delivered into a slot. -/
def deliveredIds (evs : List TEvent) : List Nat :=
  evs.filterMap (fun e => match e with
    | .delivered id => some id
    | _ => none)

/-- Every pending id was allocated below the allocation counter. -/
def pendingBounded (s : TransportState) : Prop :=
  ∀ id ∈ s.pending, id < s.nextID

lemma allocatedIds_cons_alloc (s : TransportState) (ops : List TOp) :
    allocatedIds (tRun s (TOp.alloc :: ops)).2
      = s.nextID
          :: allocatedIds (tRun ⟨s.nextID + 1, s.nextID :: s.pending⟩ ops).2 := by
  simp [tRun, tStep, allocatedIds]

lemma allocatedIds_cons_unregister (s : TransportState) (j : Nat)
    (ops : List TOp) :
    allocatedIds (tRun s (TOp.unregister j :: ops)).2
      = allocatedIds (tRun ⟨s.nextID, s.pending.erase j⟩ ops).2 := by
  simp [tRun, tStep, allocatedIds]

lemma allocatedIds_cons_respond (s : TransportState) (j : Nat)
    (ops : List TOp) :
    allocatedIds (tRun s (TOp.respond j :: ops)).2
      = allocatedIds (tRun s ops).2 := by
  by_cases hj : j ∈ s.pending <;> simp [tRun, tStep, allocatedIds, hj]

lemma deliveredIds_cons_alloc (s : TransportState) (ops : List TOp) :
    deliveredIds (tRun s (TOp.alloc :: ops)).2
      = deliveredIds (tRun ⟨s.nextID + 1, s.nextID :: s.pending⟩ ops).2 := by
  simp [tRun, tStep, deliveredIds]

lemma deliveredIds_cons_unregister (s : TransportState) (j : Nat)
    (ops : List TOp) :
    deliveredIds (tRun s (TOp.unregister j :: ops)).2
      = deliveredIds (tRun ⟨s.nextID, s.pending.erase j⟩ ops).2 := by
  simp [tRun, tStep, deliveredIds]

lemma deliveredIds_cons_respond (s : TransportState) (j : Nat)
    (ops : List TOp) :
    deliveredIds (tRun s (TOp.respond j :: ops)).2
      = (if j ∈ s.pending then [j] else [])
          ++ deliveredIds (tRun s ops).2 := by
  by_cases hj : j ∈ s.pending <;> simp [tRun, tStep, deliveredIds, hj]

lemma tRun_allocated (ops : List TOp) :
    ∀ s : TransportState,
      (∀ id ∈ allocatedIds (tRun s ops).2, s.nextID ≤ id)
        ∧ List.Pairwise (· < ·) (allocatedIds (tRun s ops).2) := by
  induction ops with
  | nil => intro s; simp [tRun, allocatedIds]
  | cons op ops ih =>
    intro s
    cases op with
    | alloc =>
      obtain ⟨ihb, ihp⟩ := ih ⟨s.nextID + 1, s.nextID :: s.pending⟩
      have hnx : (⟨s.nextID + 1, s.nextID :: s.pending⟩
          : TransportState).nextID = s.nextID + 1 := rfl
      rw [hnx] at ihb
      rw [allocatedIds_cons_alloc]
      constructor
      · intro id hid
        rcases List.mem_cons.mp hid with h | h
        · omega
        · have := ihb id h; omega
      · refine List.pairwise_cons.mpr ⟨?_, ihp⟩
        intro b hb
        have := ihb b hb
        omega
    | unregister j =>
      obtain ⟨ihb, ihp⟩ := ih ⟨s.nextID, s.pending.erase j⟩
      rw [allocatedIds_cons_unregister]
      exact ⟨fun id hid => ihb id hid, ihp⟩
    | respond j =>
      obtain ⟨ihb, ihp⟩ := ih s
      rw [allocatedIds_cons_respond]
      exact ⟨ihb, ihp⟩

/-- The pending map holds pairwise-distinct ids, all below the allocation
counter. -/
def goodState (s : TransportState) : Prop :=
  (∀ id ∈ s.pending, id < s.nextID) ∧ s.pending.Nodup

lemma tStep_good (s : TransportState) (op : TOp) (h : goodState s) :
    goodState (tStep s op).1 := by
  obtain ⟨hb, hnd⟩ := h
  cases op with
  | alloc =>
    refine ⟨?_, ?_⟩
    · intro k hk
      rcases List.mem_cons.mp hk with h' | h'
      · simp [tStep, h']
      · have := hb k h'
        simp [tStep]
        omega
    · refine List.nodup_cons.mpr ⟨?_, hnd⟩
      intro hmem
      exact absurd (hb _ hmem) (lt_irrefl _)
  | unregister j =>
    exact ⟨fun k hk => hb k (List.mem_of_mem_erase hk), hnd.erase j⟩
  | respond j => exact ⟨hb, hnd⟩

lemma tRun_good (ops : List TOp) :
    ∀ s : TransportState, goodState s → goodState (tRun s ops).1 := by
  induction ops with
  | nil => intro s h; exact h
  | cons op ops ih =>
    intro s h
    exact ih (tStep s op).1 (tStep_good s op h)

lemma tRun_no_late_delivery (ops : List TOp) :
    ∀ (s : TransportState) (id : Nat),
      (∀ k ∈ s.pending, k < s.nextID) →
      id < s.nextID → id ∉ s.pending →
      id ∉ deliveredIds (tRun s ops).2 := by
  induction ops with
  | nil => intro s id _ _ _ h; simp [tRun, deliveredIds] at h
  | cons op ops ih =>
    intro s id hb hlt hnp
    cases op with
    | alloc =>
      rw [deliveredIds_cons_alloc]
      refine ih ⟨s.nextID + 1, s.nextID :: s.pending⟩ id ?_ ?_ ?_
      · intro k hk
        rcases List.mem_cons.mp hk with h' | h'
        · simp [h']
        · have := hb k h'
          show k < s.nextID + 1
          omega
      · show id < s.nextID + 1
        omega
      · intro h
        rcases List.mem_cons.mp h with h' | h'
        · omega
        · exact hnp h'
    | unregister j =>
      rw [deliveredIds_cons_unregister]
      refine ih ⟨s.nextID, s.pending.erase j⟩ id ?_ hlt ?_
      · intro k hk
        exact hb k (List.mem_of_mem_erase hk)
      · intro h
        exact hnp (List.mem_of_mem_erase h)
    | respond j =>
      rw [deliveredIds_cons_respond]
      intro hmem
      rcases List.mem_append.mp hmem with h | h
      · by_cases hj : j ∈ s.pending
        · rw [if_pos hj] at h
          have : id = j := by simpa using h
          exact hnp (this ▸ hj)
        · rw [if_neg hj] at h
          cases h
      · exact ih s id hb hlt hnp h

/-- C9. Request-id uniqueness and routing for one stdio transport session:
(i) the ids handed to successive `SendRequest` calls are strictly increasing,
hence pairwise distinct; (ii) `readLoop` delivers a response into the slot of
its id exactly when that id is pending; (iii) once a request's slot is
unregistered (response consumed, timeout, or cancellation), that id — being
already allocated — is never delivered again for the rest of the session:
a late response with it is ignored. -/
theorem stdio_request_id_routing (ops ops1 ops2 : List TOp) (id : Nat)
    (hid : id < (tRun initTransport ops1).1.nextID) :
    List.Pairwise (· < ·) (allocatedIds (tRun initTransport ops).2)
      ∧ ((tStep (tRun initTransport ops1).1 (.respond id)).2
            = some (.delivered id)
          ↔ id ∈ (tRun initTransport ops1).1.pending)
      ∧ id ∉ deliveredIds
          (tRun (tStep (tRun initTransport ops1).1 (.unregister id)).1
            ops2).2 := by
  have hg : goodState (tRun initTransport ops1).1 :=
    tRun_good ops1 initTransport
      ⟨fun k hk => absurd hk (List.not_mem_nil k), List.nodup_nil⟩
  refine ⟨(tRun_allocated ops initTransport).2, ?_, ?_⟩
  · constructor
    · intro h
      by_cases hmem : id ∈ (tRun initTransport ops1).1.pending
      · exact hmem
      · simp [tStep, hmem] at h
    · intro hmem
      simp [tStep, hmem]
  · have hgu : goodState (tStep (tRun initTransport ops1).1
        (.unregister id)).1 := tStep_good _ _ hg
    refine tRun_no_late_delivery ops2 _ id hgu.1 hid ?_
    show id ∉ (tRun initTransport ops1).1.pending.erase id
    intro h
    exact ((List.Nodup.mem_erase_iff hg.2).mp h).1 rfl

/-- C9 witness: a concrete session — two requests get ids 1 and 2; after
request 1's slot is removed, a late response with id 1 is not delivered. -/
theorem stdio_request_id_routing_witness :
    (1 : Nat) < (tRun initTransport [TOp.alloc, TOp.alloc]).1.nextID
      ∧ (List.Pairwise (· < ·)
          (allocatedIds (tRun initTransport
            [TOp.alloc, TOp.alloc, TOp.respond 1, TOp.unregister 1]).2)
        ∧ ((tStep (tRun initTransport [TOp.alloc, TOp.alloc]).1
              (.respond 1)).2 = some (.delivered 1)
            ↔ 1 ∈ (tRun initTransport [TOp.alloc, TOp.alloc]).1.pending)
        ∧ 1 ∉ deliveredIds
            (tRun (tStep (tRun initTransport [TOp.alloc, TOp.alloc]).1
              (.unregister 1)).1 [TOp.respond 1, TOp.respond 2]).2) :=
  ⟨by decide,
    stdio_request_id_routing
      [TOp.alloc, TOp.alloc, TOp.respond 1, TOp.unregister 1]
      [TOp.alloc, TOp.alloc] [TOp.respond 1, TOp.respond 2] 1 (by decide)⟩

/-! ## Conversation loop (`internal/llm/conversation.go`)

`ConversationManager.Execute` reads the image, discovers tools, and runs at
most `MaxRounds` iterations; each iteration checks the wall clock and the
token total, makes one model call, adds the call's tokens, checks the cost
estimate, and dispatches on the stop reason (`tool_use` executes the
requested tools and continues; terminal reasons return).  Exhausting the loop
returns the max-rounds error.

The model, the tool adapter and the clock are collaborators, supplied as an
environment: scripted responses per round, scripted tool results per call,
and elapsed seconds per round.  Go `float64` cost/time arithmetic is modelled
over `ℚ` (`0.000003` dollars per token becomes the exact `3/1000000`). -/

/-- Stop reasons of a model response (`response.StopReason`). -/
inductive StopReason
  | toolUse
  | endTurn
  | maxTokensHit
  | stopSequence
  | other (s : String)
deriving DecidableEq, Repr

/-- Content blocks of a model response (`anthropic.ContentBlockUnion`); the
tool-use input JSON is consumed only by the tool adapter collaborator. -/
inductive RespBlock
  | text (t : String)
  | thinking (sig : String) (t : String)
  | toolUse (id : String) (name : String)
  | otherB (ty : String)
deriving DecidableEq, Repr

/-- One model response. -/
structure ModelResp where
  stopReason : StopReason := .endTurn
  inputTokens : Nat := 0
  outputTokens : Nat := 0
  content : List RespBlock := []
deriving DecidableEq, Repr

/-- Blocks of a user message: the initial vision message (its `%.1f` duration
formatting is not modelled) or a tool result. -/
inductive UserBlock
  | visionText (prompt : String)
  | toolResult (id : String) (content : String) (isError : Bool)
deriving DecidableEq, Repr

/-- A message in `state.Messages`. -/
inductive ConvMsg
  | user (blocks : List UserBlock)
  | assistant (blocks : List RespBlock)
deriving DecidableEq, Repr

/-- Embedding of `ConversationState` (the clock lives in the environment). -/
structure ConvState where
  messages : List ConvMsg := []
  toolCallCount : Nat := 0
  tokensUsed : Nat := 0
deriving DecidableEq, Repr

/-- Embedding of `ConversationConfig`. -/
structure ConvConfig where
  maxRounds : Nat := 0
  maxTokens : Nat := 0
  maxCostUSD : ℚ := 0
  timeoutSeconds : Nat := 0
deriving DecidableEq, Repr

/-- A unified tool as produced by the adapter (only its presence matters to
the loop). -/
structure UnifiedTool where
  name : String := ""
  description : String := ""
deriving DecidableEq, Repr

/-- The loop's collaborators: image reading, tool discovery, the model (one
scripted reply per round index), the tool adapter (one scripted result per
tool-call index), and the clock (elapsed seconds at the top of each round). -/
structure ConvEnv where
  imageRead : Except String (String × String)
  toolsDiscovery : Except String (List UnifiedTool)
  modelResponses : Nat → Except String ModelResp
  toolResults : Nat → Except String String
  elapsed : Nat → ℚ

/-- Which bound was exceeded. -/
inductive BoundKind
  | rounds
  | tokens
  | cost
  | time
deriving DecidableEq, Repr

/-- Typed failures of `Execute`. -/
inductive ConvFail
  | bound (k : BoundKind) (msg : String)
  | apiError (msg : String)
  | maxTokensPerRequest (msg : String)
  | unexpectedStop (msg : String)
  | imageReadError (msg : String)
  | discoverError (msg : String)
deriving DecidableEq, Repr

/-- Observable events of one `Execute` run: a model call (recording the token
total right after it), a tool invocation, or a bound being hit. -/
inductive ConvEvent
  | modelCall (tokensAfter : Nat)
  | toolInvoke (name : String)
  | boundHit (k : BoundKind)
deriving DecidableEq, Repr

/-- Embedding of `convertContentBlocks`: unknown block kinds become
placeholder text blocks. -/
def convertContentBlocks (blocks : List RespBlock) : List RespBlock :=
  blocks.map (fun b => match b with
    | .text t => .text t
    | .thinking sig t => .thinking sig t
    | .toolUse id name => .toolUse id name
    | .otherB ty => .text ("[" ++ ty ++ " block]"))

/-- Embedding of `extractFinalResult`: concatenate the text blocks. -/
def extractFinalResult (blocks : List RespBlock) : String :=
  let r := blocks.foldl (fun acc b => match b with
    | RespBlock.text t => acc ++ t
    | _ => acc) ""
  if r = "" then "Task completed (no text output)" else r

/-- The per-block walk of `handleToolUse`: for every `tool_use` block,
increment the call counter, run the adapter (the result text, or
`Error: {message}` with the error flag on failure), and collect the
tool-result block.  Returns the result blocks, the new counter, and the
tool-invocation events. -/
def processToolBlocks (env : ConvEnv) :
    List RespBlock → Nat → List UserBlock × Nat × List ConvEvent
  | [], cnt => ([], cnt, [])
  | b :: rest, cnt =>
    match b with
    | .toolUse id name =>
      let res := env.toolResults cnt
      let pair := match res with
        | .ok t => (t, false)
        | .error e => ("Error: " ++ e, true)
      let r := processToolBlocks env rest (cnt + 1)
      (UserBlock.toolResult id pair.1 pair.2 :: r.1, r.2.1,
        ConvEvent.toolInvoke name :: r.2.2)
    | _ => processToolBlocks env rest cnt

/-- Embedding of `handleToolUse`: all results of one assistant turn are
appended as a single user message (none when there were no tool-use
blocks). -/
def handleToolUse (env : ConvEnv) (blocks : List RespBlock)
    (st : ConvState) : ConvState × List ConvEvent :=
  let r := processToolBlocks env blocks st.toolCallCount
  ({ st with
      toolCallCount := r.2.1,
      messages := if r.1 = [] then st.messages
        else st.messages ++ [ConvMsg.user r.1] }, r.2.2)

/-- Embedding of the `for round := 0; round < MaxRounds; round++` loop of
`Execute`, structured on the remaining round budget
(`rem = MaxRounds - round`). -/
def convLoop (env : ConvEnv) (cfg : ConvConfig) :
    Nat → Nat → ConvState →
      Except ConvFail String × ConvState × List ConvEvent
  | 0, _, st =>
    (.error (.bound .rounds ("exceeded max conversation rounds: "
        ++ toString cfg.maxRounds)), st, [.boundHit .rounds])
  | rem + 1, round, st =>
    if (cfg.timeoutSeconds : ℚ) < env.elapsed round then
      (.error (.bound .time ("conversation timeout after "
          ++ toString cfg.timeoutSeconds ++ " seconds")), st,
        [.boundHit .time])
    else if cfg.maxTokens < st.tokensUsed then
      (.error (.bound .tokens ("exceeded token limit: "
          ++ toString cfg.maxTokens)), st, [.boundHit .tokens])
    else
      match env.modelResponses round with
      | .error e =>
        (.error (.apiError ("Claude API error at round "
            ++ toString (round + 1) ++ ": " ++ e)), st,
          [.modelCall st.tokensUsed])
      | .ok resp =>
        let st1 := { st with tokensUsed :=
          st.tokensUsed + resp.inputTokens + resp.outputTokens }
        -- Go: float64(TokensUsed) * 0.000003 > MaxCostUSD.  Over exact
        -- rationals this is tokensUsed * 3 / 1000000 > maxCostUSD, written
        -- as the equivalent integer cross-multiplication (den > 0).
        if cfg.maxCostUSD.num * 1000000
            < (st1.tokensUsed * 3 : Int) * cfg.maxCostUSD.den then
          (.error (.bound .cost ("exceeded cost limit")), st1,
            [.modelCall st1.tokensUsed, .boundHit .cost])
        else
          let st2 := { st1 with messages :=
            st1.messages ++ [ConvMsg.assistant
              (convertContentBlocks resp.content)] }
          match resp.stopReason with
          | .toolUse =>
            let r := handleToolUse env resp.content st2
            let rec2 := convLoop env cfg rem (round + 1) r.1
            (rec2.1, rec2.2.1,
              ConvEvent.modelCall st1.tokensUsed :: (r.2 ++ rec2.2.2))
          | .endTurn =>
            (.ok (extractFinalResult resp.content), st2,
              [.modelCall st1.tokensUsed])
          | .maxTokensHit =>
            (.error (.maxTokensPerRequest ("hit max tokens per request at round "
                ++ toString (round + 1))), st2,
              [.modelCall st1.tokensUsed])
          | .stopSequence =>
            (.ok (extractFinalResult resp.content), st2,
              [.modelCall st1.tokensUsed])
          | .other sr =>
            (.error (.unexpectedStop ("unexpected stop reason at round "
                ++ toString (round + 1) ++ ": " ++ sr)), st2,
              [.modelCall st1.tokensUsed])

/-- Embedding of `ConversationManager.Execute`: read the image, discover the
tools, seed the conversation with the initial vision message, and run the
loop. -/
def convExecute (env : ConvEnv) (cfg : ConvConfig) (userPrompt : String) :
    Except ConvFail String × ConvState × List ConvEvent :=
  match env.imageRead with
  | .error e =>
    (.error (.imageReadError ("failed to read image: " ++ e)), {}, [])
  | .ok _ =>
    match env.toolsDiscovery with
    | .error e =>
      (.error (.discoverError ("failed to discover tools: " ++ e)), {}, [])
    | .ok _ =>
      convLoop env cfg cfg.maxRounds 0
        { messages := [ConvMsg.user [UserBlock.visionText userPrompt]],
          toolCallCount := 0, tokensUsed := 0 }

/-- The number of model calls recorded in a trace. -/
def countModelCalls (evs : List ConvEvent) : Nat :=
  (evs.filterMap (fun e => match e with
    | ConvEvent.modelCall t => some t
    | _ => none)).length

/-- The token totals observed after each model call, in order. -/
def tokensTrace (evs : List ConvEvent) : List Nat :=
  evs.filterMap (fun e => match e with
    | ConvEvent.modelCall t => some t
    | _ => none)

lemma processToolBlocks_events (env : ConvEnv) :
    ∀ (bs : List RespBlock) (cnt : Nat),
      ∀ e ∈ (processToolBlocks env bs cnt).2.2, ∃ n, e = .toolInvoke n := by
  intro bs
  induction bs with
  | nil => intro cnt e he; simp [processToolBlocks] at he
  | cons b rest ih =>
    intro cnt e he
    cases b with
    | toolUse id name =>
      simp only [processToolBlocks] at he
      rcases List.mem_cons.mp he with h | h
      · exact ⟨name, h⟩
      · exact ih (cnt + 1) e h
    | text t => exact ih cnt e (by simpa [processToolBlocks] using he)
    | thinking sig t => exact ih cnt e (by simpa [processToolBlocks] using he)
    | otherB ty => exact ih cnt e (by simpa [processToolBlocks] using he)

lemma tokensTrace_of_toolInvokes (l : List ConvEvent)
    (h : ∀ e ∈ l, ∃ n, e = .toolInvoke n) :
    tokensTrace l = [] ∧ countModelCalls l = 0 := by
  induction l with
  | nil => simp [tokensTrace, countModelCalls]
  | cons e rest ih =>
    obtain ⟨n, hn⟩ := h e (List.mem_cons_self e rest)
    subst hn
    obtain ⟨h1, h2⟩ := ih (fun e' he' => h e' (List.mem_cons_of_mem _ he'))
    have e1 : tokensTrace (ConvEvent.toolInvoke n :: rest)
        = tokensTrace rest := by simp [tokensTrace]
    have e2 : countModelCalls (ConvEvent.toolInvoke n :: rest)
        = countModelCalls rest := by simp [countModelCalls]
    rw [e1, e2]
    exact ⟨h1, h2⟩

lemma tokensTrace_append (l1 l2 : List ConvEvent) :
    tokensTrace (l1 ++ l2) = tokensTrace l1 ++ tokensTrace l2 := by
  simp [tokensTrace]

lemma countModelCalls_append (l1 l2 : List ConvEvent) :
    countModelCalls (l1 ++ l2) = countModelCalls l1 + countModelCalls l2 := by
  simp [countModelCalls, tokensTrace]

lemma handleToolUse_tokens (env : ConvEnv) (bs : List RespBlock)
    (st : ConvState) : (handleToolUse env bs st).1.tokensUsed
      = st.tokensUsed := rfl

lemma convLoop_props (env : ConvEnv) (cfg : ConvConfig) :
    ∀ (rem round : Nat) (st : ConvState),
      countModelCalls (convLoop env cfg rem round st).2.2 ≤ rem
      ∧ List.Chain' (· ≤ ·) (tokensTrace (convLoop env cfg rem round st).2.2)
      ∧ (∀ x ∈ tokensTrace (convLoop env cfg rem round st).2.2,
          st.tokensUsed ≤ x)
      ∧ st.tokensUsed ≤ (convLoop env cfg rem round st).2.1.tokensUsed
      ∧ (∀ k, ConvEvent.boundHit k ∈ (convLoop env cfg rem round st).2.2 →
          ((convLoop env cfg rem round st).2.2).getLast?
              = some (.boundHit k)
            ∧ ∃ msg, (convLoop env cfg rem round st).1
                = .error (.bound k msg)) := by
  intro rem
  induction rem with
  | zero =>
    intro round st
    refine ⟨by simp [convLoop, countModelCalls], by simp [convLoop, tokensTrace],
      by simp [convLoop, tokensTrace], by simp [convLoop], ?_⟩
    intro k hk
    have hk' : k = BoundKind.rounds := by
      simpa [convLoop] using hk
    subst hk'
    exact ⟨rfl, ⟨_, rfl⟩⟩
  | succ rem ih =>
    intro round st
    by_cases hT : (cfg.timeoutSeconds : ℚ) < env.elapsed round
    · have heq : convLoop env cfg (rem + 1) round st
          = (.error (.bound .time ("conversation timeout after "
              ++ toString cfg.timeoutSeconds ++ " seconds")), st,
            [.boundHit .time]) := by
        simp [convLoop, hT]
      rw [heq]
      refine ⟨by simp [countModelCalls], by simp [tokensTrace],
        by simp [tokensTrace], le_rfl, ?_⟩
      intro k hk
      have hk' : k = BoundKind.time := by simpa using hk
      subst hk'
      exact ⟨rfl, ⟨_, rfl⟩⟩
    · by_cases hTok : cfg.maxTokens < st.tokensUsed
      · have heq : convLoop env cfg (rem + 1) round st
            = (.error (.bound .tokens ("exceeded token limit: "
                ++ toString cfg.maxTokens)), st, [.boundHit .tokens]) := by
          simp [convLoop, hT, hTok]
        rw [heq]
        refine ⟨by simp [countModelCalls], by simp [tokensTrace],
          by simp [tokensTrace], le_rfl, ?_⟩
        intro k hk
        have hk' : k = BoundKind.tokens := by simpa using hk
        subst hk'
        exact ⟨rfl, ⟨_, rfl⟩⟩
      · rcases hresp : env.modelResponses round with e | resp
        · have heq : convLoop env cfg (rem + 1) round st
              = (.error (.apiError ("Claude API error at round "
                  ++ toString (round + 1) ++ ": " ++ e)), st,
                [.modelCall st.tokensUsed]) := by
            simp [convLoop, hT, hTok, hresp]
          rw [heq]
          refine ⟨by simp [countModelCalls], by simp [tokensTrace],
            ?_, le_rfl, ?_⟩
          · intro x hx
            have : x = st.tokensUsed := by simpa [tokensTrace] using hx
            omega
          · intro k hk
            simp at hk
        · by_cases hcost : cfg.maxCostUSD.num * 1000000
              < ((st.tokensUsed + resp.inputTokens + resp.outputTokens)
                  * 3 : Int) * cfg.maxCostUSD.den
          · have heq : convLoop env cfg (rem + 1) round st
                = (.error (.bound .cost "exceeded cost limit"),
                  { st with tokensUsed := st.tokensUsed
                      + resp.inputTokens + resp.outputTokens },
                  [.modelCall (st.tokensUsed + resp.inputTokens
                      + resp.outputTokens), .boundHit .cost]) := by
              simp only [convLoop, hT, hTok, hresp]
              simp [hcost]
            rw [heq]
            refine ⟨by simp [countModelCalls], by simp [tokensTrace],
              ?_, ?_, ?_⟩
            swap
            · show st.tokensUsed ≤ st.tokensUsed + resp.inputTokens
                + resp.outputTokens
              omega
            · intro x hx
              have : x = st.tokensUsed + resp.inputTokens
                  + resp.outputTokens := by simpa [tokensTrace] using hx
              omega
            · intro k hk
              have hk' : k = BoundKind.cost := by simpa using hk
              subst hk'
              exact ⟨rfl, ⟨_, rfl⟩⟩
          · rcases hsr : resp.stopReason with _ | _ | _ | _ | sr
            · -- tool_use: execute tools and continue
              have heq : convLoop env cfg (rem + 1) round st
                  = ((convLoop env cfg rem (round + 1)
                      (handleToolUse env resp.content
                        { st with
                            tokensUsed := st.tokensUsed + resp.inputTokens
                              + resp.outputTokens,
                            messages := st.messages
                              ++ [ConvMsg.assistant
                                  (convertContentBlocks resp.content)] }).1).1,
                     (convLoop env cfg rem (round + 1)
                      (handleToolUse env resp.content
                        { st with
                            tokensUsed := st.tokensUsed + resp.inputTokens
                              + resp.outputTokens,
                            messages := st.messages
                              ++ [ConvMsg.assistant
                                  (convertContentBlocks resp.content)] }).1).2.1,
                     ConvEvent.modelCall (st.tokensUsed + resp.inputTokens
                         + resp.outputTokens)
                       :: ((handleToolUse env resp.content
                        { st with
                            tokensUsed := st.tokensUsed + resp.inputTokens
                              + resp.outputTokens,
                            messages := st.messages
                              ++ [ConvMsg.assistant
                                  (convertContentBlocks resp.content)] }).2
                         ++ (convLoop env cfg rem (round + 1)
                          (handleToolUse env resp.content
                            { st with
                                tokensUsed := st.tokensUsed + resp.inputTokens
                                  + resp.outputTokens,
                                messages := st.messages
                                  ++ [ConvMsg.assistant
                                      (convertContentBlocks resp.content)] }).1).2.2)) := by
                simp only [convLoop, hT, hTok, hresp]
                simp [hcost, hsr]
              set stMid := (handleToolUse env resp.content
                { st with
                    tokensUsed := st.tokensUsed + resp.inputTokens
                      + resp.outputTokens,
                    messages := st.messages
                      ++ [ConvMsg.assistant
                          (convertContentBlocks resp.content)] }).1 with hstMid
              set tevs := (handleToolUse env resp.content
                { st with
                    tokensUsed := st.tokensUsed + resp.inputTokens
                      + resp.outputTokens,
                    messages := st.messages
                      ++ [ConvMsg.assistant
                          (convertContentBlocks resp.content)] }).2 with htevs
              have htevsTI : ∀ e ∈ tevs, ∃ n, e = ConvEvent.toolInvoke n := by
                intro e he
                exact processToolBlocks_events env resp.content _ e he
              obtain ⟨htevs1, htevs2⟩ := tokensTrace_of_toolInvokes tevs htevsTI
              have hmidTok : stMid.tokensUsed
                  = st.tokensUsed + resp.inputTokens + resp.outputTokens := by
                rw [hstMid, handleToolUse_tokens]
              obtain ⟨ih1, ih2, ih3, ih4, ih5⟩ := ih (round + 1) stMid
              rw [heq]
              refine ⟨?_, ?_, ?_, ?_, ?_⟩
              · show countModelCalls (ConvEvent.modelCall _ :: (tevs ++ _)) ≤ rem + 1
                have : countModelCalls (ConvEvent.modelCall (st.tokensUsed
                    + resp.inputTokens + resp.outputTokens) :: (tevs
                      ++ (convLoop env cfg rem (round + 1) stMid).2.2))
                    = 1 + (countModelCalls tevs + countModelCalls
                        (convLoop env cfg rem (round + 1) stMid).2.2) := by
                  simp only [countModelCalls, List.filterMap_cons,
                    List.filterMap_append, List.length_append,
                    List.length_cons]
                  omega
                rw [this, htevs2]
                omega
              · show List.Chain' _ (tokensTrace (ConvEvent.modelCall _ :: (tevs ++ _)))
                have htr : tokensTrace (ConvEvent.modelCall (st.tokensUsed
                    + resp.inputTokens + resp.outputTokens) :: (tevs
                      ++ (convLoop env cfg rem (round + 1) stMid).2.2))
                    = (st.tokensUsed + resp.inputTokens + resp.outputTokens)
                      :: tokensTrace (convLoop env cfg rem (round + 1) stMid).2.2 := by
                  simp [tokensTrace] at htevs1 ⊢
                  exact htevs1
                rw [htr]
                refine List.chain'_cons'.mpr ⟨?_, ih2⟩
                intro y hy
                have hyMem : y ∈ tokensTrace
                    (convLoop env cfg rem (round + 1) stMid).2.2 :=
                  List.mem_of_mem_head? hy
                have := ih3 y hyMem
                omega
              · intro x hx
                show st.tokensUsed ≤ x
                have htr : tokensTrace (ConvEvent.modelCall (st.tokensUsed
                    + resp.inputTokens + resp.outputTokens) :: (tevs
                      ++ (convLoop env cfg rem (round + 1) stMid).2.2))
                    = (st.tokensUsed + resp.inputTokens + resp.outputTokens)
                      :: tokensTrace (convLoop env cfg rem (round + 1) stMid).2.2 := by
                  simp [tokensTrace] at htevs1 ⊢
                  exact htevs1
                rw [htr] at hx
                rcases List.mem_cons.mp hx with h | h
                · omega
                · have := ih3 x h
                  omega
              · show st.tokensUsed
                  ≤ (convLoop env cfg rem (round + 1) stMid).2.1.tokensUsed
                have := ih4
                omega
              · intro k hk
                show (ConvEvent.modelCall _ :: (tevs ++ _)).getLast? = _ ∧ _
                have hkIn : ConvEvent.boundHit k
                    ∈ (convLoop env cfg rem (round + 1) stMid).2.2 := by
                  rcases List.mem_cons.mp hk with h | h
                  · cases h
                  · rcases List.mem_append.mp h with h' | h'
                    · obtain ⟨n, hn⟩ := htevsTI _ h'
                      cases hn
                    · exact h'
                obtain ⟨ihL, ihR⟩ := ih5 k hkIn
                have hne : (convLoop env cfg rem (round + 1) stMid).2.2
                    ≠ [] := by
                  intro hnil
                  rw [hnil] at hkIn
                  cases hkIn
                constructor
                · rw [show (ConvEvent.modelCall (st.tokensUsed
                      + resp.inputTokens + resp.outputTokens) :: (tevs
                        ++ (convLoop env cfg rem (round + 1) stMid).2.2))
                      = (ConvEvent.modelCall (st.tokensUsed
                        + resp.inputTokens + resp.outputTokens) :: tevs)
                        ++ (convLoop env cfg rem (round + 1) stMid).2.2 by
                    simp]
                  rw [List.getLast?_append_of_ne_nil _ hne]
                  exact ihL
                · exact ihR
            · -- end_turn
              have heq : convLoop env cfg (rem + 1) round st
                  = (.ok (extractFinalResult resp.content),
                    { st with
                        tokensUsed := st.tokensUsed + resp.inputTokens
                          + resp.outputTokens,
                        messages := st.messages
                          ++ [ConvMsg.assistant
                              (convertContentBlocks resp.content)] },
                    [.modelCall (st.tokensUsed + resp.inputTokens
                        + resp.outputTokens)]) := by
                simp only [convLoop, hT, hTok, hresp]
                simp [hcost, hsr]
              rw [heq]
              refine ⟨by simp [countModelCalls], by simp [tokensTrace],
                ?_, (by
                  show st.tokensUsed ≤ st.tokensUsed + resp.inputTokens
                    + resp.outputTokens
                  omega), ?_⟩
              · intro x hx
                have : x = st.tokensUsed + resp.inputTokens
                    + resp.outputTokens := by simpa [tokensTrace] using hx
                omega
              · intro k hk
                simp at hk
            · -- max_tokens
              have heq : convLoop env cfg (rem + 1) round st
                  = (.error (.maxTokensPerRequest
                      ("hit max tokens per request at round "
                        ++ toString (round + 1))),
                    { st with
                        tokensUsed := st.tokensUsed + resp.inputTokens
                          + resp.outputTokens,
                        messages := st.messages
                          ++ [ConvMsg.assistant
                              (convertContentBlocks resp.content)] },
                    [.modelCall (st.tokensUsed + resp.inputTokens
                        + resp.outputTokens)]) := by
                simp only [convLoop, hT, hTok, hresp]
                simp [hcost, hsr]
              rw [heq]
              refine ⟨by simp [countModelCalls], by simp [tokensTrace],
                ?_, (by
                  show st.tokensUsed ≤ st.tokensUsed + resp.inputTokens
                    + resp.outputTokens
                  omega), ?_⟩
              · intro x hx
                have : x = st.tokensUsed + resp.inputTokens
                    + resp.outputTokens := by simpa [tokensTrace] using hx
                omega
              · intro k hk
                simp at hk
            · -- stop_sequence
              have heq : convLoop env cfg (rem + 1) round st
                  = (.ok (extractFinalResult resp.content),
                    { st with
                        tokensUsed := st.tokensUsed + resp.inputTokens
                          + resp.outputTokens,
                        messages := st.messages
                          ++ [ConvMsg.assistant
                              (convertContentBlocks resp.content)] },
                    [.modelCall (st.tokensUsed + resp.inputTokens
                        + resp.outputTokens)]) := by
                simp only [convLoop, hT, hTok, hresp]
                simp [hcost, hsr]
              rw [heq]
              refine ⟨by simp [countModelCalls], by simp [tokensTrace],
                ?_, (by
                  show st.tokensUsed ≤ st.tokensUsed + resp.inputTokens
                    + resp.outputTokens
                  omega), ?_⟩
              · intro x hx
                have : x = st.tokensUsed + resp.inputTokens
                    + resp.outputTokens := by simpa [tokensTrace] using hx
                omega
              · intro k hk
                simp at hk
            · -- unexpected stop reason
              have heq : convLoop env cfg (rem + 1) round st
                  = (.error (.unexpectedStop
                      ("unexpected stop reason at round "
                        ++ toString (round + 1) ++ ": " ++ sr)),
                    { st with
                        tokensUsed := st.tokensUsed + resp.inputTokens
                          + resp.outputTokens,
                        messages := st.messages
                          ++ [ConvMsg.assistant
                              (convertContentBlocks resp.content)] },
                    [.modelCall (st.tokensUsed + resp.inputTokens
                        + resp.outputTokens)]) := by
                simp only [convLoop, hT, hTok, hresp]
                simp [hcost, hsr]
              rw [heq]
              refine ⟨by simp [countModelCalls], by simp [tokensTrace],
                ?_, (by
                  show st.tokensUsed ≤ st.tokensUsed + resp.inputTokens
                    + resp.outputTokens
                  omega), ?_⟩
              · intro x hx
                have : x = st.tokensUsed + resp.inputTokens
                    + resp.outputTokens := by simpa [tokensTrace] using hx
                omega
              · intro k hk
                simp at hk

/-- The number of bound-hit events in a trace. -/
def countBoundHits (evs : List ConvEvent) : Nat :=
  (evs.filterMap (fun e => match e with
    | ConvEvent.boundHit k => some k
    | _ => none)).length

lemma countBoundHits_append (l1 l2 : List ConvEvent) :
    countBoundHits (l1 ++ l2) = countBoundHits l1 + countBoundHits l2 := by
  simp [countBoundHits]

lemma countBoundHits_of_toolInvokes (l : List ConvEvent)
    (h : ∀ e ∈ l, ∃ n, e = .toolInvoke n) : countBoundHits l = 0 := by
  induction l with
  | nil => simp [countBoundHits]
  | cons e rest ih =>
    obtain ⟨n, hn⟩ := h e (List.mem_cons_self e rest)
    subst hn
    have e2 : countBoundHits (ConvEvent.toolInvoke n :: rest)
        = countBoundHits rest := by simp [countBoundHits]
    rw [e2]
    exact ih (fun e' he' => h e' (List.mem_cons_of_mem _ he'))

lemma convLoop_boundHits (env : ConvEnv) (cfg : ConvConfig) :
    ∀ (rem round : Nat) (st : ConvState),
      countBoundHits (convLoop env cfg rem round st).2.2 ≤ 1 := by
  intro rem
  induction rem with
  | zero => intro round st; simp [convLoop, countBoundHits]
  | succ rem ih =>
    intro round st
    by_cases hT : (cfg.timeoutSeconds : ℚ) < env.elapsed round
    · simp [convLoop, hT, countBoundHits]
    · by_cases hTok : cfg.maxTokens < st.tokensUsed
      · simp [convLoop, hT, hTok, countBoundHits]
      · rcases hresp : env.modelResponses round with e | resp
        · simp [convLoop, hT, hTok, hresp, countBoundHits]
        · by_cases hcost : cfg.maxCostUSD.num * 1000000
              < ((st.tokensUsed + resp.inputTokens + resp.outputTokens)
                  * 3 : Int) * cfg.maxCostUSD.den
          · simp only [convLoop, hT, hTok, hresp]
            simp [hcost, countBoundHits]
          · rcases hsr : resp.stopReason with _ | _ | _ | _ | sr
            · have heq : (convLoop env cfg (rem + 1) round st).2.2
                  = ConvEvent.modelCall (st.tokensUsed + resp.inputTokens
                      + resp.outputTokens)
                    :: ((handleToolUse env resp.content
                      { st with
                          tokensUsed := st.tokensUsed + resp.inputTokens
                            + resp.outputTokens,
                          messages := st.messages
                            ++ [ConvMsg.assistant
                                (convertContentBlocks resp.content)] }).2
                      ++ (convLoop env cfg rem (round + 1)
                        (handleToolUse env resp.content
                          { st with
                              tokensUsed := st.tokensUsed + resp.inputTokens
                                + resp.outputTokens,
                              messages := st.messages
                                ++ [ConvMsg.assistant
                                    (convertContentBlocks resp.content)] }).1).2.2) := by
                simp only [convLoop, hT, hTok, hresp]
                simp [hcost, hsr]
              rw [heq]
              have h0 : countBoundHits (ConvEvent.modelCall (st.tokensUsed
                  + resp.inputTokens + resp.outputTokens) :: ((handleToolUse
                    env resp.content
                    { st with
                        tokensUsed := st.tokensUsed + resp.inputTokens
                          + resp.outputTokens,
                        messages := st.messages
                          ++ [ConvMsg.assistant
                              (convertContentBlocks resp.content)] }).2
                    ++ (convLoop env cfg rem (round + 1)
                      (handleToolUse env resp.content
                        { st with
                            tokensUsed := st.tokensUsed + resp.inputTokens
                              + resp.outputTokens,
                            messages := st.messages
                              ++ [ConvMsg.assistant
                                  (convertContentBlocks resp.content)] }).1).2.2))
                  = countBoundHits ((handleToolUse env resp.content
                    { st with
                        tokensUsed := st.tokensUsed + resp.inputTokens
                          + resp.outputTokens,
                        messages := st.messages
                          ++ [ConvMsg.assistant
                              (convertContentBlocks resp.content)] }).2)
                    + countBoundHits ((convLoop env cfg rem (round + 1)
                      (handleToolUse env resp.content
                        { st with
                            tokensUsed := st.tokensUsed + resp.inputTokens
                              + resp.outputTokens,
                            messages := st.messages
                              ++ [ConvMsg.assistant
                                  (convertContentBlocks resp.content)] }).1).2.2) := by
                simp [countBoundHits]
              have htz : countBoundHits ((handleToolUse env resp.content
                  { st with
                      tokensUsed := st.tokensUsed + resp.inputTokens
                        + resp.outputTokens,
                      messages := st.messages
                        ++ [ConvMsg.assistant
                            (convertContentBlocks resp.content)] }).2) = 0 :=
                countBoundHits_of_toolInvokes _
                  (fun e he => processToolBlocks_events env resp.content _ e he)
              rw [h0, htz]
              simpa using ih (round + 1) _
            · simp only [convLoop, hT, hTok, hresp]
              simp [hcost, hsr, countBoundHits]
            · simp only [convLoop, hT, hTok, hresp]
              simp [hcost, hsr, countBoundHits]
            · simp only [convLoop, hT, hTok, hresp]
              simp [hcost, hsr, countBoundHits]
            · simp only [convLoop, hT, hTok, hresp]
              simp [hcost, hsr, countBoundHits]

/-- C5. Conversation boundedness: with `max_rounds = N` the model is called
at most `N + 1` times (the loop in fact makes at most `N` calls); the token
totals observed after successive model calls never decrease; and whenever a
bound (rounds, tokens, cost, or wall time) is hit, it is the last event of
the run — `Execute` returns the corresponding typed failure and no tool is
invoked afterwards. -/
theorem conversation_bounded (env : ConvEnv) (cfg : ConvConfig)
    (userPrompt : String) :
    countModelCalls (convExecute env cfg userPrompt).2.2 ≤ cfg.maxRounds + 1
      ∧ List.Chain' (· ≤ ·) (tokensTrace (convExecute env cfg userPrompt).2.2)
      ∧ (∀ k, ConvEvent.boundHit k ∈ (convExecute env cfg userPrompt).2.2 →
          ((convExecute env cfg userPrompt).2.2).getLast?
              = some (.boundHit k)
            ∧ (∃ msg, (convExecute env cfg userPrompt).1
                = .error (.bound k msg)))
      ∧ (∀ l1 k l2, (convExecute env cfg userPrompt).2.2
            = l1 ++ ConvEvent.boundHit k :: l2 → l2 = []) := by
  rcases himg : env.imageRead with e | img
  · have heq : convExecute env cfg userPrompt
        = (.error (.imageReadError ("failed to read image: " ++ e)), {}, []) := by
      simp [convExecute, himg]
    rw [heq]
    refine ⟨by simp [countModelCalls], by simp [tokensTrace], ?_, ?_⟩
    · intro k hk; simp at hk
    · intro l1 k l2 h
      exact absurd h (by simp)
  · rcases hdisc : env.toolsDiscovery with e | tools
    · have heq : convExecute env cfg userPrompt
          = (.error (.discoverError ("failed to discover tools: " ++ e)),
            {}, []) := by
        simp [convExecute, himg, hdisc]
      rw [heq]
      refine ⟨by simp [countModelCalls], by simp [tokensTrace], ?_, ?_⟩
      · intro k hk; simp at hk
      · intro l1 k l2 h
        exact absurd h (by simp)
    · have heq : convExecute env cfg userPrompt
          = convLoop env cfg cfg.maxRounds 0
            { messages := [ConvMsg.user [UserBlock.visionText userPrompt]],
              toolCallCount := 0, tokensUsed := 0 } := by
        simp [convExecute, himg, hdisc]
      rw [heq]
      obtain ⟨h1, h2, _, _, h5⟩ := convLoop_props env cfg cfg.maxRounds 0
        { messages := [ConvMsg.user [UserBlock.visionText userPrompt]],
          toolCallCount := 0, tokensUsed := 0 }
      have hbh := convLoop_boundHits env cfg cfg.maxRounds 0
        { messages := [ConvMsg.user [UserBlock.visionText userPrompt]],
          toolCallCount := 0, tokensUsed := 0 }
      refine ⟨Nat.le_succ_of_le h1, h2, h5, ?_⟩
      intro l1 k l2 hdecomp
      by_contra hne
      obtain ⟨hlast, _⟩ := h5 k (by
        rw [hdecomp]
        exact List.mem_append.mpr (Or.inr (List.mem_cons_self _ _)))
      rw [hdecomp, List.getLast?_append_cons] at hlast
      have hlast2 : l2.getLast? = some (ConvEvent.boundHit k) := by
        rw [show (ConvEvent.boundHit k :: l2)
            = [ConvEvent.boundHit k] ++ l2 from rfl,
          List.getLast?_append_of_ne_nil _ hne] at hlast
        exact hlast
      have hmem2 : ConvEvent.boundHit k ∈ l2 := by
        obtain ⟨hh, hx⟩ := List.mem_getLast?_eq_getLast
          (show ConvEvent.boundHit k ∈ l2.getLast? by rw [hlast2]; rfl)
        rw [hx]
        exact List.getLast_mem hh
      have hcount : 2 ≤ countBoundHits (l1 ++ ConvEvent.boundHit k :: l2) := by
        rw [countBoundHits_append]
        have h2mem : k ∈ l2.filterMap (fun e => match e with
            | ConvEvent.boundHit k => some k
            | _ => none) :=
          List.mem_filterMap.mpr ⟨ConvEvent.boundHit k, hmem2, rfl⟩
        have hpos : 1 ≤ countBoundHits l2 := by
          have hne2 := List.ne_nil_of_mem h2mem
          have := List.length_pos.mpr hne2
          simpa [countBoundHits] using this
        have hatLeast : countBoundHits (ConvEvent.boundHit k :: l2)
            = 1 + countBoundHits l2 := by
          simp [countBoundHits]
          omega
        omega
      rw [← hdecomp] at hcount
      omega

/-- Bounds for the boundedness witness (scenario S7 shape): two rounds, a
10-token cap. -/
def c5Cfg : ConvConfig :=
  { maxRounds := 2, maxTokens := 10, maxCostUSD := 1, timeoutSeconds := 60 }

/-- Scripted collaborators: the first model reply requests one tool and
reports 6 + 6 tokens, which overruns the cap at the next round's check. -/
def c5Env : ConvEnv :=
  { imageRead := .ok ("aGk=", "image/png"),
    toolsDiscovery := .ok [{ name := "imagesorcery__detect" }],
    modelResponses := fun n =>
      if n = 0 then
        .ok { stopReason := .toolUse, inputTokens := 6, outputTokens := 6,
              content := [.toolUse "toolu_1" "imagesorcery__detect"] }
      else .ok {},
    toolResults := fun _ => .ok "ok",
    elapsed := fun _ => 0 }

/-- C5 witness: with the scripted environment the token bound is hit; the
bound-hit is the final event, the run fails with the token-bound error, and
at most `max_rounds + 1` model calls were made. -/
theorem conversation_bounded_witness :
    ConvEvent.boundHit BoundKind.tokens ∈ (convExecute c5Env c5Cfg "").2.2
      ∧ (((convExecute c5Env c5Cfg "").2.2).getLast?
            = some (.boundHit .tokens)
          ∧ ∃ msg, (convExecute c5Env c5Cfg "").1
              = .error (.bound .tokens msg))
      ∧ countModelCalls (convExecute c5Env c5Cfg "").2.2
          ≤ c5Cfg.maxRounds + 1 :=
  ⟨by decide,
    (conversation_bounded c5Env c5Cfg "").2.2.1 BoundKind.tokens (by decide),
    (conversation_bounded c5Env c5Cfg "").1⟩
